import Mathlib

/-!
Verification of the VEOS DMA manager (`src/veos/dma/dma_api.c`,
`src/veos/dma/dma_private.h`), the signal delivery core
(`src/veos/psm/task_signal.c`) and the pseudo-process memory transfer
layer (`lib/libvepseudo/amm/mm_transfer.c`), as a shallow embedding in
Lean 4.  Machine integers are modelled as `Nat` reduced modulo `2^64`
where overflow matters; C linked lists become Lean `List`s; fallible
calls return `Except`/`Option` or are modelled by explicit outcome
flags.
-/

namespace Veos

/-- `2^64`, the modulus of 64-bit machine arithmetic. -/
def MOD64 : Nat := 18446744073709551616

/-- 64-bit wrapping subtraction `a - b (mod 2^64)`. -/
def sub64 (a b : Nat) : Nat := (a + (MOD64 - b % MOD64)) % MOD64

/-- 64-bit wrapping addition. -/
def add64 (a b : Nat) : Nat := (a + b) % MOD64

/-- Bitwise complement of a 64-bit word (the C `~` operator). -/
def not64 (x : Nat) : Nat := (MOD64 - 1) ^^^ x

/-!
## `ffsl` — find first set bit

The C library function `ffsl` used by `psm_get_next_ve_signal`
(task_signal.c:873): returns the 1-based index of the least significant
set bit, or `0` when the argument is `0`.
-/

/-- C `ffsl(3)`: 1-based index of the lowest set bit of `x`, `0` if `x = 0`. -/
def ffsl (x : Nat) : Nat :=
  if _h : x = 0 then 0
  else if x % 2 = 1 then 1
  else ffsl (x / 2) + 1
decreasing_by exact Nat.div_lt_self (Nat.pos_of_ne_zero _h) one_lt_two

theorem ffsl_zero : ffsl 0 = 0 := by unfold ffsl; simp

theorem ffsl_pos {x : Nat} (hx : x ≠ 0) : 1 ≤ ffsl x := by
  unfold ffsl
  split
  · omega
  · split <;> omega

/-- The bit that `ffsl` names really is set. -/
theorem ffsl_testBit {x : Nat} (hx : x ≠ 0) :
    Nat.testBit x (ffsl x - 1) = true := by
  induction x using Nat.strong_induction_on with
  | _ x ih =>
    unfold ffsl
    rw [dif_neg hx]
    by_cases h2 : x % 2 = 1
    · simp only [if_pos h2]
      simp [Nat.testBit_zero, h2]
    · simp only [if_neg h2]
      have hx2 : x / 2 ≠ 0 := by omega
      have hlt : x / 2 < x := Nat.div_lt_self (Nat.pos_of_ne_zero hx) one_lt_two
      have := ih (x / 2) hlt hx2
      have hge := ffsl_pos hx2
      have hbit : Nat.testBit x (ffsl (x / 2) - 1 + 1) = true := by
        rw [Nat.testBit_add_one]
        exact this
      have : ffsl (x / 2) + 1 - 1 = ffsl (x / 2) - 1 + 1 := by omega
      rw [this, hbit]

/-- No bit below the one `ffsl` names is set. -/
theorem ffsl_lowest {x : Nat} (hx : x ≠ 0) :
    ∀ j, j < ffsl x - 1 → Nat.testBit x j = false := by
  induction x using Nat.strong_induction_on with
  | _ x ih =>
    intro j hj
    unfold ffsl at hj
    rw [dif_neg hx] at hj
    by_cases h2 : x % 2 = 1
    · simp [if_pos h2] at hj
    · simp only [if_neg h2] at hj
      have hx2 : x / 2 ≠ 0 := by omega
      have hlt : x / 2 < x := Nat.div_lt_self (Nat.pos_of_ne_zero hx) one_lt_two
      match j with
      | 0 =>
        simp [Nat.testBit_zero, h2]
      | j + 1 =>
        rw [Nat.testBit_add_one]
        exact ih (x / 2) hlt hx2 j (by omega)

/-!
## Signal-number constants

Signal numbers follow the host's (Linux/glibc) numbering, which the
source relies on through `<signal.h>`.  `sigismember(set, sig)` tests
bit `sig - 1` of the set; `sigaddset` sets it.
-/

def SIGINT : Nat := 2
def SIGILL : Nat := 4
def SIGTRAP : Nat := 5
def SIGBUS : Nat := 7
def SIGFPE : Nat := 8
def SIGUSR1 : Nat := 10
def SIGSEGV : Nat := 11
def SIGKILL : Nat := 9
def SIGCONT : Nat := 18
def SIGSTOP : Nat := 19
def SIGTSTP : Nat := 20
def SIGTTIN : Nat := 21
def SIGTTOU : Nat := 22
def SIGSYS : Nat := 31

/-- Modelled from the spec: glibc `SIGRTMIN` (the header providing it is
not under `src/`); real-time signals are those at or above it. -/
def SIGRTMIN : Nat := 34

/-- Bit of signal `sig` inside a `sigset_t` word (glibc: bit `sig - 1`). -/
def sigBit (sig : Nat) : Nat := 2 ^ (sig - 1)

/-- glibc `sigismember` on the first `sigset_t` word. -/
def sigismember (set : Nat) (sig : Nat) : Bool := Nat.testBit set (sig - 1)

/-- glibc `sigaddset` on the first `sigset_t` word. -/
def sigaddset (set : Nat) (sig : Nat) : Nat := set ||| sigBit sig

/-- glibc `sigdelset` on the first `sigset_t` word. -/
def sigdelset (set : Nat) (sig : Nat) : Nat := set &&& not64 (sigBit sig)

/-- Modelled from the spec: `VE_SYNCHRONOUS_MASK` (defined in a signal
header that is not under `src/`) — the mask of signals generated by
user-mode exceptions (glossary: arithmetic, illegal instruction, memory
fault), i.e. `SIGILL`, `SIGTRAP`, `SIGBUS`, `SIGFPE`, `SIGSEGV`,
`SIGSYS`. -/
def VE_SYNCHRONOUS_MASK : Nat :=
  sigBit SIGILL ||| sigBit SIGTRAP ||| sigBit SIGBUS |||
  sigBit SIGFPE ||| sigBit SIGSEGV ||| sigBit SIGSYS

/-!
## `psm_get_next_ve_signal` (task_signal.c:854-879)

The source reads word 0 of the pending set and of the blocking mask
(`pending->signal.__val[0]`, `mask->__val[0]`); both are modelled as a
64-bit `Nat`.  All valid Linux signal numbers (1..64) live in word 0.
-/

/-- task_signal.c:854 `psm_get_next_ve_signal`: next signal to deliver
from `pending` not blocked by `mask`, synchronous signals first;
`0` when no signal is deliverable. -/
def psm_get_next_ve_signal (pending mask : Nat) : Nat :=
  let effective_set := pending &&& not64 mask
  if effective_set ≠ 0 then
    if effective_set &&& VE_SYNCHRONOUS_MASK ≠ 0 then
      ffsl (effective_set &&& VE_SYNCHRONOUS_MASK)
    else
      ffsl effective_set
  else 0

/-- `sig` is the lowest-numbered member of the signal set `s`
(signal `n` is a member iff bit `n - 1` is set). -/
def IsLowestMember (sig : Nat) (s : Nat) : Prop :=
  1 ≤ sig ∧ Nat.testBit s (sig - 1) = true ∧
    ∀ j, j < sig - 1 → Nat.testBit s j = false

theorem ffsl_isLowestMember {s : Nat} (hs : s ≠ 0) :
    IsLowestMember (ffsl s) s :=
  ⟨ffsl_pos hs, ffsl_testBit hs, ffsl_lowest hs⟩

/-- **C1.** For every pending set and blocked mask, the signal number
returned by `psm_get_next_ve_signal` is the lowest-numbered member of
`pending & ~blocked`, restricted to the synchronous-signal subset
whenever that intersection is non-empty, and `0` is returned when
`pending & ~blocked` is empty. -/
theorem psm_get_next_ve_signal_spec (pending mask : Nat) :
    (pending &&& not64 mask = 0 → psm_get_next_ve_signal pending mask = 0) ∧
    (pending &&& not64 mask ≠ 0 →
      (pending &&& not64 mask &&& VE_SYNCHRONOUS_MASK ≠ 0 →
        IsLowestMember (psm_get_next_ve_signal pending mask)
          (pending &&& not64 mask &&& VE_SYNCHRONOUS_MASK)) ∧
      (pending &&& not64 mask &&& VE_SYNCHRONOUS_MASK = 0 →
        IsLowestMember (psm_get_next_ve_signal pending mask)
          (pending &&& not64 mask))) := by
  constructor
  · intro h0
    simp [psm_get_next_ve_signal, h0]
  · intro hne
    constructor
    · intro hsync
      simp only [psm_get_next_ve_signal, if_pos hne, if_pos hsync, ne_eq,
        hne, not_false_eq_true, if_true, hsync, ite_true]
      exact ffsl_isLowestMember hsync
    · intro hsync
      simp only [psm_get_next_ve_signal, ne_eq, hne, not_false_eq_true,
        if_true, hsync, not_true_eq_false, if_false, ite_false]
      exact ffsl_isLowestMember hne

/-- Witness for **C1** at a concrete input: with `SIGUSR1` and `SIGSEGV`
pending and nothing blocked, the chosen signal is the lowest member of
the synchronous intersection (namely `SIGSEGV = 11`). -/
theorem psm_get_next_ve_signal_spec_witness :
    IsLowestMember
      (psm_get_next_ve_signal (sigBit SIGUSR1 ||| sigBit SIGSEGV) 0)
      ((sigBit SIGUSR1 ||| sigBit SIGSEGV) &&& not64 0 &&&
        VE_SYNCHRONOUS_MASK) :=
  ((psm_get_next_ve_signal_spec (sigBit SIGUSR1 ||| sigBit SIGSEGV) 0).2
    (by decide)).1 (by decide)

/-!
## DMA engine state (dma_private.h:64-78)

`struct ve_dma_hdl_struct`: the fields the claims are about.  Descriptor
slots hold an optional request-entry identifier (`req_entry` back
pointers); the wait queue holds entry identifiers in FIFO order.
Threads, mutexes and register mappings are concurrency artefacts with
no algebraic content and are not part of the state.
-/

structure ve_dma_hdl where
  should_stop : Bool
  desc_used_begin : Nat
  desc_num_used : Nat
  req_entry : List (Option Nat)
  waiting_list : List Nat
deriving DecidableEq, Repr

/-- errno `EBUSY` (16). -/
def EBUSY : Int := 16

/-- errno `EINVAL` (22). -/
def EINVAL : Int := 22

/-- Result of `ve_dma_close_p`: errno-style return value, resulting
engine state, and whether the engine was stopped
(`ve_dma__stop_engine`) and the interrupt helper joined
(`pthread_join`). -/
structure CloseResult where
  retval : Int
  hdl : ve_dma_hdl
  engineStopped : Bool
  helperJoined : Bool
deriving DecidableEq, Repr

/-- dma_api.c:112 `ve_dma_close_p`: refuse when descriptors are in use
or the engine is already closing; otherwise set `should_stop`, stop the
engine and join the helper thread. -/
def ve_dma_close_p (hdl : ve_dma_hdl) : CloseResult :=
  if hdl.desc_num_used ≠ 0 then
    ⟨-EBUSY, hdl, false, false⟩
  else if hdl.should_stop then
    ⟨-EBUSY, hdl, false, false⟩
  else
    ⟨0, { hdl with should_stop := true }, true, true⟩

/-!
## DMA address kinds and request validation (dma_api.c:158-255)
-/

/-- Modelled from the spec: the six-member address-kind enumeration of
`ve_dma_addrtype_t` (`dma.h`, not under `src/`); the enumeration values
are represented as 0..5. -/
def VE_DMA_VHVA : Int := 0
def VE_DMA_VHSAA : Int := 1
def VE_DMA_VEMVA : Int := 2
def VE_DMA_VEMVA_WO_PROT_CHECK : Int := 3
def VE_DMA_VEMAA : Int := 4
def VE_DMA_VERAA : Int := 5

/-- dma_api.c:158 `ve_dma_post__check_addr_type`: `0` for each of the
six supported address kinds, `-EINVAL` otherwise. -/
def ve_dma_post__check_addr_type (t : Int) : Int :=
  if t = VE_DMA_VEMVA then 0
  else if t = VE_DMA_VEMVA_WO_PROT_CHECK then 0
  else if t = VE_DMA_VHVA then 0
  else if t = VE_DMA_VEMAA then 0
  else if t = VE_DMA_VERAA then 0
  else if t = VE_DMA_VHSAA then 0
  else -EINVAL

/-- dma_private.h:33 `VE_DMA_MAX_LENGTH`. -/
def VE_DMA_MAX_LENGTH : Nat := 0x7FFFFFFFFFFFFFF8

/-- `IS_ALIGNED(x, a)` as used by dma_api.c. -/
def IS_ALIGNED (x a : Nat) : Bool := x % a = 0

/-- dma_api.c:207 `ve_dma_post_p_va`, parameter-validation prefix
translated from the source.  The code after validation (DMA request
handle creation and `ve_dma_reqlist_make` / `ve_dma_reqlist_post` in
`dma_reqlist.c`, which is not under `src/`) is abstracted as the
`body` argument acting on the engine state. -/
def ve_dma_post_p_va
    (body : ve_dma_hdl → Except Int Unit × ve_dma_hdl)
    (hdl : ve_dma_hdl) (srctype : Int) (srcaddr : Nat)
    (dsttype : Int) (dstaddr : Nat) (length : Nat) :
    Except Int Unit × ve_dma_hdl :=
  if ¬ IS_ALIGNED length 8 then (.error EINVAL, hdl)
  else if length > VE_DMA_MAX_LENGTH then (.error EINVAL, hdl)
  else if ¬ IS_ALIGNED srcaddr 8 then (.error EINVAL, hdl)
  else if ¬ IS_ALIGNED dstaddr 8 then (.error EINVAL, hdl)
  else if ve_dma_post__check_addr_type srctype ≠ 0 then (.error EINVAL, hdl)
  else if ve_dma_post__check_addr_type dsttype ≠ 0 then (.error EINVAL, hdl)
  else body hdl

/-- The address-kind check succeeds exactly on the six enumeration
members. -/
theorem check_addr_type_eq_zero_iff (t : Int) :
    ve_dma_post__check_addr_type t = 0 ↔
      t ∈ [VE_DMA_VHVA, VE_DMA_VHSAA, VE_DMA_VEMVA,
           VE_DMA_VEMVA_WO_PROT_CHECK, VE_DMA_VEMAA, VE_DMA_VERAA] := by
  unfold ve_dma_post__check_addr_type
  split_ifs with h1 h2 h3 h4 h5 h6 <;> simp_all
  decide

/-- **C2.** For every DMA submission, if the length is not a multiple
of 8, or exceeds `0x7FFFFFFFFFFFFFF8`, or either address is not a
multiple of 8, or either address kind is outside the six-member
enumeration, `ve_dma_post_p_va` fails with `EINVAL` and the engine
state is returned unchanged — no descriptor slot, wait-queue or used
counter was touched. -/
theorem ve_dma_post_p_va_invalid
    (body : ve_dma_hdl → Except Int Unit × ve_dma_hdl)
    (hdl : ve_dma_hdl) (srctype : Int) (srcaddr : Nat)
    (dsttype : Int) (dstaddr : Nat) (length : Nat)
    (h : length % 8 ≠ 0 ∨ length > VE_DMA_MAX_LENGTH ∨
         srcaddr % 8 ≠ 0 ∨ dstaddr % 8 ≠ 0 ∨
         srctype ∉ [VE_DMA_VHVA, VE_DMA_VHSAA, VE_DMA_VEMVA,
                    VE_DMA_VEMVA_WO_PROT_CHECK, VE_DMA_VEMAA, VE_DMA_VERAA] ∨
         dsttype ∉ [VE_DMA_VHVA, VE_DMA_VHSAA, VE_DMA_VEMVA,
                    VE_DMA_VEMVA_WO_PROT_CHECK, VE_DMA_VEMAA, VE_DMA_VERAA]) :
    ve_dma_post_p_va body hdl srctype srcaddr dsttype dstaddr length =
      (.error EINVAL, hdl) := by
  unfold ve_dma_post_p_va
  split_ifs with h1 h2 h3 h4 h5 h6 <;> try rfl
  exfalso
  simp only [IS_ALIGNED, not_not, decide_eq_true_eq] at h1 h3 h4
  rw [not_not] at h5 h6
  rcases h with h | h | h | h | h | h
  · exact h h1
  · exact absurd h (by omega)
  · exact h h3
  · exact h h4
  · exact h ((check_addr_type_eq_zero_iff srctype).mp h5)
  · exact h ((check_addr_type_eq_zero_iff dsttype).mp h6)

/-- Witness for **C2**: a misaligned length of 7 bytes is rejected with
`EINVAL` and the engine state (here: one used descriptor, one waiting
entry) is unchanged. -/
theorem ve_dma_post_p_va_invalid_witness :
    ve_dma_post_p_va (fun h => (.ok (), { h with desc_num_used := 99 }))
        ⟨false, 3, 1, [some 5], [7]⟩ VE_DMA_VHVA 0 VE_DMA_VEMVA 0 7 =
      (.error EINVAL, ⟨false, 3, 1, [some 5], [7]⟩) :=
  ve_dma_post_p_va_invalid _ _ _ _ _ _ _ (Or.inl (by decide))

/-!
## `ve_dma_wait` / `ve_dma_timedwait` (dma_api.c:395-448)

The blocking loops are modelled over a finite trace of observations.
Each observation is what one `pthread_cond_wait` wakeup yields: the
derived request status (`ve_dma_reqlist_test`) and the engine's
`should_stop` flag at the subsequent loop check.  For
`ve_dma_timedwait`, a `none` observation is a wakeup where
`pthread_cond_timedwait` returned `ETIMEDOUT`.  A loop that would keep
blocking past the end of the trace yields `none` (still blocked).
-/

inductive ve_dma_status where
  | ok
  | notFinished
  | canceled
  | timedOut
  | error
deriving DecidableEq, Repr

/-- Loop of dma_api.c:401-407: the value of `ret` when the `while` loop
exits, given the initial status/flag and the observation trace. -/
def ve_dma_wait_loop :
    ve_dma_status → Bool → List (ve_dma_status × Bool) →
    Option ve_dma_status
  | ret, stop, obs =>
    if ret = .notFinished ∧ stop = false then
      match obs with
      | [] => none
      | (ret', stop') :: rest => ve_dma_wait_loop ret' stop' rest
    else some ret

/-- dma_api.c:395 `ve_dma_wait`: after the loop, a still-`NOT_FINISHED`
status is reported as `CANCELED`. -/
def ve_dma_wait (st0 : ve_dma_status) (stop0 : Bool)
    (obs : List (ve_dma_status × Bool)) : Option ve_dma_status :=
  (ve_dma_wait_loop st0 stop0 obs).map
    fun ret => if ret = .notFinished then .canceled else ret

/-- Loop of dma_api.c:431-443: as `ve_dma_wait_loop`, but an
`ETIMEDOUT` wakeup sets `ret` to `TIMEDOUT` and breaks. -/
def ve_dma_timedwait_loop :
    ve_dma_status → Bool → List (Option (ve_dma_status × Bool)) →
    Option ve_dma_status
  | ret, stop, obs =>
    if ret = .notFinished ∧ stop = false then
      match obs with
      | [] => none
      | none :: _ => some .timedOut
      | some (ret', stop') :: rest => ve_dma_timedwait_loop ret' stop' rest
    else some ret

/-- dma_api.c:425 `ve_dma_timedwait`. -/
def ve_dma_timedwait (st0 : ve_dma_status) (stop0 : Bool)
    (obs : List (Option (ve_dma_status × Bool))) : Option ve_dma_status :=
  (ve_dma_timedwait_loop st0 stop0 obs).map
    fun ret => if ret = .notFinished then .canceled else ret

theorem ve_dma_wait_blocks (st0 : ve_dma_status) (stop0 : Bool)
    (obs : List (ve_dma_status × Bool))
    (h0 : st0 = .notFinished) (hs : stop0 = false)
    (h : ∀ p ∈ obs, p.1 = ve_dma_status.notFinished ∧ p.2 = false) :
    ve_dma_wait st0 stop0 obs = none := by
  subst h0 hs
  induction obs with
  | nil => rfl
  | cons p rest ih =>
    obtain ⟨h1, h2⟩ := h p (List.mem_cons_self p rest)
    have hrest : ∀ q ∈ rest,
        q.1 = ve_dma_status.notFinished ∧ q.2 = false :=
      fun q hq => h q (List.mem_cons_of_mem p hq)
    unfold ve_dma_wait ve_dma_wait_loop
    simp only [and_self, if_true, ite_true]
    obtain ⟨a, b⟩ := p
    simp only at h1 h2
    subst h1 h2
    exact ih hrest

/-- **C4.** Neither `ve_dma_wait` nor `ve_dma_timedwait` ever returns
`NOT_FINISHED`: the call blocks while the derived status is
`NOT_FINISHED` and `should_stop` is clear, and a loop exit with the
derived status still `NOT_FINISHED` is reported as `CANCELED` —
except that `ve_dma_timedwait` reports `TIMEDOUT` when the deadline
expired first. -/
theorem ve_dma_wait_timedwait_spec (st0 : ve_dma_status) (stop0 : Bool)
    (obs : List (ve_dma_status × Bool))
    (obs' : List (Option (ve_dma_status × Bool))) :
    (∀ r, ve_dma_wait st0 stop0 obs = some r → r ≠ .notFinished) ∧
    (ve_dma_wait_loop st0 stop0 obs = some .notFinished →
      ve_dma_wait st0 stop0 obs = some .canceled) ∧
    (st0 = .notFinished → stop0 = false →
      (∀ p ∈ obs, p.1 = ve_dma_status.notFinished ∧ p.2 = false) →
      ve_dma_wait st0 stop0 obs = none) ∧
    (∀ r, ve_dma_timedwait st0 stop0 obs' = some r → r ≠ .notFinished) ∧
    (ve_dma_timedwait_loop st0 stop0 obs' = some .notFinished →
      ve_dma_timedwait st0 stop0 obs' = some .canceled) ∧
    (ve_dma_timedwait_loop st0 stop0 obs' = some .timedOut →
      ve_dma_timedwait st0 stop0 obs' = some .timedOut) := by
  refine ⟨?_, ?_, ?_, ?_, ?_, ?_⟩
  · intro r hr
    unfold ve_dma_wait at hr
    rw [Option.map_eq_some'] at hr
    obtain ⟨ret, _, hret⟩ := hr
    subst hret
    split <;> simp_all
  · intro hloop
    unfold ve_dma_wait
    rw [hloop]
    rfl
  · exact ve_dma_wait_blocks st0 stop0 obs
  · intro r hr
    unfold ve_dma_timedwait at hr
    rw [Option.map_eq_some'] at hr
    obtain ⟨ret, _, hret⟩ := hr
    subst hret
    split <;> simp_all
  · intro hloop
    unfold ve_dma_timedwait
    rw [hloop]
    rfl
  · intro hloop
    unfold ve_dma_timedwait
    rw [hloop]
    rfl

/-- Witness for **C4**: a request observed `NOT_FINISHED` whose engine
is then shut down (`should_stop` observed set while the status is still
`NOT_FINISHED`) is reported `CANCELED`; a timed wait that times out
first is reported `TIMEDOUT`. -/
theorem ve_dma_wait_timedwait_spec_witness :
    ve_dma_wait .notFinished false [(.notFinished, true)] =
        some .canceled ∧
      ve_dma_timedwait .notFinished false [none] = some .timedOut :=
  ⟨(ve_dma_wait_timedwait_spec .notFinished false
      [(.notFinished, true)] [none]).2.1 (by decide),
   (ve_dma_wait_timedwait_spec .notFinished false
      [(.notFinished, true)] [none]).2.2.2.2.2 (by decide)⟩

/-- **C5 counterexample.** An engine with no descriptors in use
(`desc_num_used = 0`) but `should_stop` already set is refused with
`-EBUSY`, so "returns Busy if and only if requests are in flight" is
false. -/
theorem ve_dma_close_p_busy_counterexample :
    (ve_dma_close_p ⟨true, 0, 0, [], []⟩).retval = -EBUSY ∧
      (⟨true, 0, 0, [], []⟩ : ve_dma_hdl).desc_num_used = 0 := by
  constructor <;> rfl

/-- **C5 (amended).** `ve_dma_close_p` returns `-EBUSY` if and only if
requests are in flight (`desc_num_used ≠ 0`) or the engine is already
closing (`should_stop` set); when it returns Busy the engine state is
unchanged and the engine is neither stopped nor the helper joined;
otherwise it sets `should_stop`, stops the engine, joins the helper
worker and returns 0. -/
theorem ve_dma_close_p_spec (hdl : ve_dma_hdl) :
    ((ve_dma_close_p hdl).retval = -EBUSY ↔
      hdl.desc_num_used ≠ 0 ∨ hdl.should_stop = true) ∧
    ((ve_dma_close_p hdl).retval = -EBUSY →
      (ve_dma_close_p hdl).hdl = hdl ∧
      (ve_dma_close_p hdl).engineStopped = false ∧
      (ve_dma_close_p hdl).helperJoined = false) ∧
    ((ve_dma_close_p hdl).retval ≠ -EBUSY →
      (ve_dma_close_p hdl).retval = 0 ∧
      (ve_dma_close_p hdl).hdl = { hdl with should_stop := true } ∧
      (ve_dma_close_p hdl).engineStopped = true ∧
      (ve_dma_close_p hdl).helperJoined = true) := by
  unfold ve_dma_close_p
  split_ifs with h1 h2
  · refine ⟨?_, ?_, ?_⟩
    · simp [h1]
    · intro _; exact ⟨rfl, rfl, rfl⟩
    · intro hne; exact absurd rfl hne
  · refine ⟨?_, ?_, ?_⟩
    · simp [h2]
    · intro _; exact ⟨rfl, rfl, rfl⟩
    · intro hne; exact absurd rfl hne
  · refine ⟨?_, ?_, ?_⟩
    · constructor
      · intro habs; simp [EBUSY] at habs
      · intro hor
        rcases hor with h | h
        · exact absurd h h1
        · simp [h] at h2
    · intro habs; simp [EBUSY] at habs
    · intro _; exact ⟨rfl, rfl, rfl, rfl⟩

/-- Witness for **C5 (amended)**: closing an idle engine succeeds, sets
`should_stop`, stops the engine and joins the helper. -/
theorem ve_dma_close_p_spec_witness :
    (ve_dma_close_p ⟨false, 2, 0, [none], []⟩).retval = 0 ∧
      (ve_dma_close_p ⟨false, 2, 0, [none], []⟩).hdl =
        ⟨true, 2, 0, [none], []⟩ ∧
      (ve_dma_close_p ⟨false, 2, 0, [none], []⟩).engineStopped = true ∧
      (ve_dma_close_p ⟨false, 2, 0, [none], []⟩).helperJoined = true :=
  (ve_dma_close_p_spec ⟨false, 2, 0, [none], []⟩).2.2 (by decide)

/-!
## Task state for signal delivery (task_signal.c)

`core_user_reg_t` is modelled by the registers the signal code reads or
writes; copying the whole register file (`memcpy` of the struct) is
copying all fields of the model.  `sighand->action` is the per-signal
`sigaction` table, indexed as in the source by `signum - 1`.
-/

structure core_user_reg where
  IC : Nat
  SR0 : Nat
  SR1 : Nat
  SR2 : Nat
  SR8 : Nat
  SR10 : Nat
  SR11 : Nat
  SR12 : Nat
deriving DecidableEq, Repr

structure ve_sigaction where
  sa_handler : Nat
  sa_flags : Nat
  sa_mask : Nat
deriving DecidableEq, Repr

structure ve_task_struct where
  p_ve_thread : core_user_reg
  sas_ss_sp : Nat
  sas_ss_size : Nat
  action : Nat → ve_sigaction
  blocked : Nat
  mask_saved : Bool
  ve_saved_sigmask : Nat

/-- Linux `sigaction` flag values used by the source. -/
def SA_ONSTACK : Nat := 0x08000000
def SA_RESTART : Nat := 0x10000000
def SA_NODEFER : Nat := 0x40000000
def SA_RESETHAND : Nat := 0x80000000

/-- errno `EINTR` (4) and `EFAULT` (14). -/
def EINTR : Nat := 4
def EFAULT : Int := 14

/-- Modelled from the spec: the VEOS restart codes (`VE_ERESTARTSYS`,
`VE_ENORESTART`; the header defining them is not under `src/`).  They
mirror the Linux in-kernel restart codes; only their distinctness
matters to the claims. -/
def VE_ERESTARTSYS : Nat := 512
def VE_ENORESTART : Nat := 513

/-- Two's-complement encoding of `-e` in a 64-bit register. -/
def negErrno (e : Nat) : Nat := MOD64 - e

/-- Modelled from the spec: `sizeof(struct sigframe)` (the header
defining `struct sigframe` is not under `src/`).  The spec fixes the
layout (trampoline, siginfo, ucontext, lshm scratch, fatal flag, signal
number) at compile time; the claims only use the size as an opaque
positive quantity, represented by a concrete value here. -/
def sizeof_sigframe : Nat := 2048

/-- Modelled from the spec: `HANDLER_STACK_FRAME`, the 512-byte
handler-local scratch area below the saved context (stack diagram at
task_signal.c:1089-1110). -/
def HANDLER_STACK_FRAME : Nat := 512

/-- Modelled from the spec: `offsetof(struct sigframe, ve_siginfo)` and
`offsetof(struct sigframe, uc)` — the trampoline occupies the first
5×8 = 40 bytes, the siginfo follows it. -/
def offsetof_sigframe_siginfo : Nat := 40
def offsetof_sigframe_uc : Nat := 168

/-- task_signal.c:984 `on_sig_stack`: the alternate signal stack is
active when `sas_ss_sp < SP ≤ sas_ss_sp + sas_ss_size`. -/
def on_sig_stack (t : ve_task_struct) : Bool :=
  let sp := t.p_ve_thread.SR11
  sp > t.sas_ss_sp && sp - t.sas_ss_sp ≤ t.sas_ss_size

/-- task_signal.c:1013 `ve_getframe`, virtual-address part: the frame
virtual address and the `on_altstack` output flag.  (The subsequent
virtual-to-physical translation, `__veos_virt_to_phy`, lives outside
`src/` and does not influence which address is chosen.) -/
def ve_getframe_vir (t : ve_task_struct) (signum : Nat) : Nat × Bool :=
  let onsigstack := on_sig_stack t
  let flag := (t.action (signum - 1)).sa_flags
  if onsigstack = false then
    if flag &&& SA_ONSTACK ≠ 0 ∧ t.sas_ss_size ≠ 0 then
      (sub64 (add64 t.sas_ss_sp t.sas_ss_size) sizeof_sigframe, true)
    else
      (sub64 t.p_ve_thread.SR11 sizeof_sigframe, false)
  else
    (sub64 t.p_ve_thread.SR11 sizeof_sigframe, false)

/-- **C8.** The frame address chosen by `ve_getframe` is the top of the
alternate stack (`sas_ss_sp + sas_ss_size`) minus the frame size when
the task is not on the alternate stack, the handler has `SA_ONSTACK`
set and the alternate stack size is non-zero; and the current stack
pointer `SR[11]` minus the frame size in every other case. -/
theorem ve_getframe_spec (t : ve_task_struct) (signum : Nat) :
    (on_sig_stack t = false →
      (t.action (signum - 1)).sa_flags &&& SA_ONSTACK ≠ 0 →
      t.sas_ss_size ≠ 0 →
      (ve_getframe_vir t signum).1 =
        sub64 (add64 t.sas_ss_sp t.sas_ss_size) sizeof_sigframe) ∧
    (¬ (on_sig_stack t = false ∧
        (t.action (signum - 1)).sa_flags &&& SA_ONSTACK ≠ 0 ∧
        t.sas_ss_size ≠ 0) →
      (ve_getframe_vir t signum).1 =
        sub64 t.p_ve_thread.SR11 sizeof_sigframe) := by
  constructor
  · intro h1 h2 h3
    unfold ve_getframe_vir
    rw [if_pos h1, if_pos ⟨h2, h3⟩]
  · intro hn
    unfold ve_getframe_vir
    by_cases h1 : on_sig_stack t = false
    · rw [if_pos h1]
      have : ¬ ((t.action (signum - 1)).sa_flags &&& SA_ONSTACK ≠ 0 ∧
          t.sas_ss_size ≠ 0) := by
        intro ⟨h2, h3⟩
        exact hn ⟨h1, h2, h3⟩
      rw [if_neg this]
    · rw [if_neg h1]

/-- Witness for **C8**: a task off the alternate stack whose handler has
`SA_ONSTACK` and a non-empty alternate stack gets its frame at the top
of the alternate stack minus the frame size. -/
theorem ve_getframe_spec_witness :
    (ve_getframe_vir
      { p_ve_thread := ⟨0, 0, 0, 0, 0, 0, 0x600000000000, 0⟩,
        sas_ss_sp := 0x700000000000, sas_ss_size := 0x10000,
        action := fun _ => ⟨0x1000, SA_ONSTACK, 0⟩,
        blocked := 0, mask_saved := false, ve_saved_sigmask := 0 }
      SIGUSR1).1 =
      sub64 (add64 0x700000000000 0x10000) sizeof_sigframe :=
  (ve_getframe_spec _ SIGUSR1).1 (by decide) (by decide) (by decide)

/-!
## `setup_ve_frame` / `ve_handle_signal` / `psm_restore_ve_context`
-/

/-- The signal frame fields relevant to context save/restore
(`struct sigframe`): saved user context, saved mask, the
synchronous-from-exception flag and the signal number. -/
structure sigframe where
  uc_mcontext : core_user_reg
  uc_sigmask : Nat
  flag : Nat
  signum : Nat
deriving DecidableEq, Repr

/-- task_signal.c:1084 `setup_ve_frame`: build the signal frame (saving
the *current* thread context and mask), DMA it to VE memory, then point
the registers at the handler.  The two fallible external steps —
virtual-to-physical translation inside `ve_getframe` and the DMA write
(`ve_dma_xfer_p_va`) — are given as the outcome flags `translateOk` and
`dmaOk`; either failure returns `-EFAULT` as in the source. -/
def setup_ve_frame (signum : Nat) (t : ve_task_struct)
    (flag : Nat) (translateOk dmaOk : Bool) :
    Except Int (ve_task_struct × sigframe) :=
  let fr := ve_getframe_vir t signum
  let frame_vir_addr := fr.1
  let on_altstack := fr.2
  if translateOk = false then .error (-EFAULT)
  else
    let frame : sigframe :=
      { uc_mcontext := t.p_ve_thread,
        uc_sigmask := if t.mask_saved then t.ve_saved_sigmask else t.blocked,
        flag := flag,
        signum := signum }
    if dmaOk = false then .error (-EFAULT)
    else
      let handler := (t.action (signum - 1)).sa_handler
      let th := t.p_ve_thread
      let th' : core_user_reg :=
        { IC := handler,
          SR12 := handler,
          SR0 := signum,
          SR1 := add64 frame_vir_addr offsetof_sigframe_siginfo,
          SR2 := add64 frame_vir_addr offsetof_sigframe_uc,
          SR10 := frame_vir_addr,
          SR11 := sub64 frame_vir_addr HANDLER_STACK_FRAME,
          SR8 := if on_altstack then t.sas_ss_sp else th.SR8 }
      .ok ({ t with p_ve_thread := th' }, frame)

/-- task_signal.c:2042-2066, the part of `ve_handle_signal` that decides
syscall restart and builds the frame: the `switch` on `SR[0]`
(rewinding the IC by 8 under `SA_RESTART`, or storing `-EINTR`),
followed by `setup_ve_frame`.  The remainder of `ve_handle_signal`
(`SA_RESETHAND` handler reset and blocked-mask update,
task_signal.c:2068-2093) touches neither the IC nor the frame. -/
def ve_handle_signal_frame (t : ve_task_struct) (flag signum : Nat)
    (translateOk dmaOk : Bool) : Except Int (ve_task_struct × sigframe) :=
  let t1 :=
    if t.p_ve_thread.SR0 = negErrno VE_ENORESTART then
      { t with p_ve_thread := { t.p_ve_thread with SR0 := negErrno EINTR } }
    else if t.p_ve_thread.SR0 = negErrno VE_ERESTARTSYS then
      if (t.action (signum - 1)).sa_flags &&& SA_RESTART ≠ 0 then
        { t with p_ve_thread :=
            { t.p_ve_thread with IC := sub64 t.p_ve_thread.IC 8 } }
      else
        { t with p_ve_thread := { t.p_ve_thread with SR0 := negErrno EINTR } }
    else t
  setup_ve_frame signum t1 flag translateOk dmaOk

/-- task_signal.c:188 `psm_restore_ve_context`: read the frame back
from VE memory (the frame contents are the `frame` argument) and
overwrite the task's user registers and blocked mask with the saved
ones; the second component reports whether the frame's fatal flag
forces a terminating `kill`.  No register is inspected or adjusted —
in particular there is no `SR[0]` check and no IC rewind here. -/
def psm_restore_ve_context (t : ve_task_struct) (frame : sigframe) :
    ve_task_struct × Bool :=
  ({ t with p_ve_thread := frame.uc_mcontext,
            blocked := frame.uc_sigmask },
   frame.flag ≠ 0)

/-- Projection helpers for stating concrete facts about
`ve_handle_signal_frame` results (the task record carries a function
field, so whole-record equality is not decidable). -/
def handleResultIC (r : Except Int (ve_task_struct × sigframe)) : Nat :=
  match r with
  | .ok (t, _) => t.p_ve_thread.IC
  | .error _ => 0

def handleResultFrameIC (r : Except Int (ve_task_struct × sigframe)) : Nat :=
  match r with
  | .ok (_, f) => f.uc_mcontext.IC
  | .error _ => 0

/-- The concrete task used to refute C3: `SR[0]` holds
`-VE_ERESTARTSYS`, the `SIGUSR1` handler at address `0x1e61` has
`SA_RESTART` set, and the pre-delivery IC is 1000. -/
def restartCexTask : ve_task_struct :=
  { p_ve_thread := ⟨1000, negErrno VE_ERESTARTSYS, 0, 0, 0, 0,
      0x600000000000, 0⟩,
    sas_ss_sp := 0, sas_ss_size := 0,
    action := fun _ => ⟨0x1e61, SA_RESTART, 0⟩,
    blocked := 0, mask_saved := false, ve_saved_sigmask := 0 }

/-- **C3 counterexample.** For a task with `SR[0] = -VE_ERESTARTSYS`
and a `SA_RESTART` handler, the IC after frame setup is *not* unchanged
from its pre-delivery value: it holds the handler address, and the
context saved in the frame holds the pre-delivery IC already rewound by
8 — the rewind happened *before* `setup_ve_frame`, not in
`psm_restore_ve_context`. -/
theorem ve_handle_signal_restart_counterexample :
    restartCexTask.p_ve_thread.SR0 = negErrno VE_ERESTARTSYS ∧
    (restartCexTask.action (SIGUSR1 - 1)).sa_flags &&& SA_RESTART ≠ 0 ∧
    restartCexTask.p_ve_thread.IC = 1000 ∧
    handleResultIC
      (ve_handle_signal_frame restartCexTask 0 SIGUSR1 true true) = 0x1e61 ∧
    (0x1e61 : Nat) ≠ 1000 ∧
    handleResultFrameIC
      (ve_handle_signal_frame restartCexTask 0 SIGUSR1 true true) = 992 := by
  refine ⟨rfl, by decide, rfl, ?_, by decide, ?_⟩ <;> rfl

/-- **C3 (amended).** For every task whose `SR[0]` holds
`-VE_ERESTARTSYS` and whose delivered signal has a user handler with
`SA_RESTART` set, `ve_handle_signal` rewinds the IC by 8 *before*
calling `setup_ve_frame`; the frame then saves the rewound IC and the
live IC is set to the handler address, and `psm_restore_ve_context`
restores the saved context verbatim on handler return (it performs no
`SR[0]` detection and no rewind of its own), so the task resumes at the
pre-delivery IC minus 8. -/
theorem ve_handle_signal_restart_spec (t : ve_task_struct)
    (flag signum : Nat)
    (h0 : t.p_ve_thread.SR0 = negErrno VE_ERESTARTSYS)
    (hr : (t.action (signum - 1)).sa_flags &&& SA_RESTART ≠ 0) :
    (∃ t2 frame,
      ve_handle_signal_frame t flag signum true true = .ok (t2, frame) ∧
      t2.p_ve_thread.IC = (t.action (signum - 1)).sa_handler ∧
      frame.uc_mcontext.IC = sub64 t.p_ve_thread.IC 8 ∧
      (psm_restore_ve_context t2 frame).1.p_ve_thread.IC =
        sub64 t.p_ve_thread.IC 8) ∧
    (∀ (t' : ve_task_struct) (f : sigframe),
      (psm_restore_ve_context t' f).1.p_ve_thread = f.uc_mcontext) := by
  constructor
  · have hne : t.p_ve_thread.SR0 ≠ negErrno VE_ENORESTART := by
      rw [h0]; decide
    have hstep : ve_handle_signal_frame t flag signum true true =
        setup_ve_frame signum
          { t with p_ve_thread :=
              { t.p_ve_thread with IC := sub64 t.p_ve_thread.IC 8 } }
          flag true true := by
      unfold ve_handle_signal_frame
      rw [if_neg hne, if_pos h0, if_pos hr]
    rw [hstep]
    exact ⟨_, _, rfl, rfl, rfl, rfl⟩
  · intro t' f
    rfl

/-- Witness for **C3 (amended)** at the concrete task above. -/
theorem ve_handle_signal_restart_spec_witness :
    (∃ t2 frame,
      ve_handle_signal_frame restartCexTask 0 SIGUSR1 true true =
        .ok (t2, frame) ∧
      t2.p_ve_thread.IC =
        (restartCexTask.action (SIGUSR1 - 1)).sa_handler ∧
      frame.uc_mcontext.IC = sub64 restartCexTask.p_ve_thread.IC 8 ∧
      (psm_restore_ve_context t2 frame).1.p_ve_thread.IC =
        sub64 restartCexTask.p_ve_thread.IC 8) ∧
    (∀ (t' : ve_task_struct) (f : sigframe),
      (psm_restore_ve_context t' f).1.p_ve_thread = f.uc_mcontext) :=
  ve_handle_signal_restart_spec restartCexTask 0 SIGUSR1 rfl (by decide)

/-!
## `do_ve_coredump` (task_signal.c:1664-1830)

Every fallible step of the dump session is represented by an outcome
flag; the control flow (the `goto` chain into the common tail at
task_signal.c:1799-1822) is translated step for step.
-/

/-- Modelled from the spec: the flag value marking a signal as
generated from a hardware exception (`SYNCHRONOUS_SIGNAL`; the header
defining it is not under `src/`). -/
def SYNCHRONOUS_SIGNAL : Nat := 1

/-- Outcomes of the fallible steps of a core-dump session, in the order
the source attempts them. -/
structure dump_outcome where
  limit_zero : Bool
  socketpair_fail : Bool
  corename_alloc_fail : Bool
  format_fail : Bool
  sockfd_alloc_fail : Bool
  fork_fail : Bool
  recv_fd_fail : Bool
  elf_dump_fail : Bool
deriving DecidableEq, Repr

/-- Result of a core-dump session: whether the ELF dump completed, and
the signal sent to the host-side process at the end. -/
structure dump_result where
  dumped : Bool
  kill_sig : Nat
deriving DecidableEq, Repr

/-- task_signal.c:1664 `do_ve_coredump`.  All error paths `goto` labels
that fall through to the common tail, which always signals the
host-side process: with the original signal number when the triggering
signal was synchronous-from-exception, with `SIGKILL` otherwise. -/
def do_ve_coredump (flag signum : Nat) (o : dump_outcome) : dump_result :=
  let finish (d : Bool) : dump_result :=
    { dumped := d,
      kill_sig := if flag = SYNCHRONOUS_SIGNAL then signum else SIGKILL }
  if o.limit_zero then finish false
  else if o.socketpair_fail then finish false
  else if o.corename_alloc_fail then finish false
  else if o.format_fail then finish false
  else if o.sockfd_alloc_fail then finish false
  else if o.fork_fail then finish false
  else if o.recv_fd_fail then finish false
  else if o.elf_dump_fail then finish false
  else finish true

/-- **C9.** Every core-dump session terminates the host-side process,
no matter which step fails (or whether all succeed): the signal sent is
the original signal number for a synchronous-from-exception trigger and
`SIGKILL` otherwise; moreover the dump completes exactly when no step
fails. -/
theorem do_ve_coredump_always_kills (flag signum : Nat)
    (o : dump_outcome) :
    (do_ve_coredump flag signum o).kill_sig =
      (if flag = SYNCHRONOUS_SIGNAL then signum else SIGKILL) ∧
    ((do_ve_coredump flag signum o).dumped = true ↔
      o.limit_zero = false ∧ o.socketpair_fail = false ∧
      o.corename_alloc_fail = false ∧ o.format_fail = false ∧
      o.sockfd_alloc_fail = false ∧ o.fork_fail = false ∧
      o.recv_fd_fail = false ∧ o.elf_dump_fail = false) := by
  unfold do_ve_coredump
  obtain ⟨a, b, c, d, e, f, g, h⟩ := o
  cases a <;> cases b <;> cases c <;> cases d <;>
    cases e <;> cases f <;> cases g <;> cases h <;> simp

/-!
## Signal pending queue: `psm_send_ve_signal` / `ve_collect_signal`

Per-task signal-queue state.  The intrusive `list_head` pending list
becomes a Lean `List`; the `sighand` fields the queue logic reads
(`ve_sigpending` count, `RLIMIT_SIGPENDING`, the group-coredump flag)
are carried in the same state record.  `dropped` is a ghost field
recording that some enqueue has dropped a record at the resource limit
(task_signal.c:332-337); it shadows no source variable and influences
no computation.
-/

/-- One pending-signal record (`struct ve_sigqueue`): signal number and
the synchronous-from-exception flag (the siginfo payload plays no role
in the claims). -/
structure ve_sigqueue where
  signo : Nat
  flag : Nat
deriving DecidableEq, Repr

structure SigState where
  queue : List ve_sigqueue
  mask : Nat
  sigpending_cnt : Nat
  rlim : Nat
  coredump_in_progress : Bool
  dropped : Bool
deriving DecidableEq, Repr

/-- Modelled from the spec: `ve_sig_stop` — membership in the stopping
set {`SIGSTOP`, `SIGTSTP`, `SIGTTIN`, `SIGTTOU`} (`VE_SIG_STOP_MASK`;
the defining header is not under `src/`). -/
def VE_SIG_STOP_MASK : Nat :=
  sigBit SIGSTOP ||| sigBit SIGTSTP ||| sigBit SIGTTIN ||| sigBit SIGTTOU

/-- Modelled from the spec: `ve_sig_stop(sig)` (header not under
`src/`). -/
def ve_sig_stop (sig : Nat) : Bool := sigismember VE_SIG_STOP_MASK sig

/-- Modelled from the spec: `legacy_queue` (header not under `src/`) —
"Non-real-time signals coalesce: if a record with the same signal
number is already queued, enqueue is a no-op (the bit is already
set)": a non-real-time signal whose pending bit is already set is not
queued again. -/
def legacy_queue (mask : Nat) (sig : Nat) : Bool :=
  decide (sig < SIGRTMIN) && sigismember mask sig

/-- Number of pending records carrying signal `sig`. -/
def countSig (q : List ve_sigqueue) (sig : Nat) : Nat :=
  (q.filter fun r => r.signo = sig).length

/-- Remove the first record with signal `sig` from the queue, reporting
whether one was found (the `list_for_each_safe` + `break` loop of
task_signal.c:528-542). -/
def removeFirst : List ve_sigqueue → Nat → List ve_sigqueue × Bool
  | [], _ => ([], false)
  | r :: rest, sig =>
    if r.signo = sig then (rest, true)
    else
      let p := removeFirst rest sig
      (r :: p.1, p.2)

/-- task_signal.c:487-514 `ve_group_action(FSIGCONTINUE)`, queue part:
walk the pending list, deleting every record whose signal lies in
`VE_SIG_STOP_MASK` and clearing that record's bit in the pending mask.
(`psm_start_ve_process` changes only the task run state.)  Returns the
new queue and mask. -/
def ve_group_action_continue : List ve_sigqueue → Nat → List ve_sigqueue × Nat
  | [], m => ([], m)
  | r :: rest, m =>
    if sigismember VE_SIG_STOP_MASK r.signo then
      ve_group_action_continue rest (sigdelset m r.signo)
    else
      let p := ve_group_action_continue rest m
      (r :: p.1, p.2)

/-- task_signal.c:522-543 `ve_group_action(FSIGMASKING)`: delete the
first pending record with signal `sig` and clear its bit; no change
when no such record exists. -/
def ve_group_action_masking (queue : List ve_sigqueue) (m : Nat)
    (sig : Nat) : List ve_sigqueue × Nat :=
  let p := removeFirst queue sig
  if p.2 then (p.1, sigdelset m sig) else (queue, m)

/-- task_signal.c:316 `psm_ve_sigqueue_alloc` (heap allocation assumed
to succeed): bump the pending count; at the resource limit without
override, drop the record and restore the count.  Returns the new
count and whether a record was allocated. -/
def psm_ve_sigqueue_alloc (cnt rlim : Nat) (override : Bool) :
    Nat × Bool :=
  let cnt1 := cnt + 1
  if override || decide (cnt1 ≤ rlim) then (cnt1, true)
  else (cnt1 - 1, false)

/-- task_signal.c:684-698, the group-action phase of
`psm_send_ve_signal` for a thread group of one task: `SIGCONT` first
flushes pending stop signals, and a stop signal first flushes a
pending `SIGCONT` (`ve_do_group_action` with `FSIGCONTINUE` /
`FSIGMASKING`). -/
def psm_send_group_part (s : SigState) (sig : Nat) : SigState :=
  if sig = SIGCONT then
    { s with queue := (ve_group_action_continue s.queue s.mask).1,
             mask := (ve_group_action_continue s.queue s.mask).2 }
  else if ve_sig_stop sig then
    { s with queue := (ve_group_action_masking s.queue s.mask SIGCONT).1,
             mask := (ve_group_action_masking s.queue s.mask SIGCONT).2 }
  else s

/-- task_signal.c:699-755, the queueing phase of `psm_send_ve_signal`:
coalesce via `legacy_queue`, otherwise allocate (or drop at the
resource limit) and in either case set the pending-mask bit. -/
def psm_send_queue_part (s1 : SigState) (sig flag : Nat)
    (override : Bool) : SigState :=
  if legacy_queue s1.mask sig then s1
  else if (psm_ve_sigqueue_alloc s1.sigpending_cnt s1.rlim
      (if sig < SIGRTMIN then override else false)).2 then
    { s1 with queue := s1.queue ++ [⟨sig, flag⟩],
              sigpending_cnt :=
                (psm_ve_sigqueue_alloc s1.sigpending_cnt s1.rlim
                  (if sig < SIGRTMIN then override else false)).1,
              mask := sigaddset s1.mask sig }
  else
    { s1 with sigpending_cnt :=
                (psm_ve_sigqueue_alloc s1.sigpending_cnt s1.rlim
                  (if sig < SIGRTMIN then override else false)).1,
              mask := sigaddset s1.mask sig,
              dropped := true }

/-- task_signal.c:657 `psm_send_ve_signal`, signal-queue effects for a
thread group of one task: while a group coredump is in progress
nothing is queued (only `got_sigint` may be noted); otherwise the
group-action phase runs first and the queueing phase second.
`override` is the caller-dependent `override_ve_rlimit` input for
non-real-time signals (the source forces it to 0 for real-time ones,
task_signal.c:711-715). -/
def psm_send_ve_signal (s : SigState) (sig flag : Nat)
    (override : Bool) : SigState :=
  if s.coredump_in_progress then s
  else psm_send_queue_part (psm_send_group_part s sig) sig flag override

/-- task_signal.c:893 `ve_collect_signal`: with two or more records of
`sig` pending, remove the oldest and keep the bit; with exactly one,
clear the bit and remove it; with none (rate-limit drop), clear the
bit and synthesize the siginfo. -/
def ve_collect_signal (s : SigState) (sig : Nat) : SigState :=
  let n := countSig s.queue sig
  if n = 0 then
    { s with mask := sigdelset s.mask sig }
  else if n = 1 then
    { s with mask := sigdelset s.mask sig,
             queue := (removeFirst s.queue sig).1,
             sigpending_cnt := s.sigpending_cnt - 1 }
  else
    { s with queue := (removeFirst s.queue sig).1,
             sigpending_cnt := s.sigpending_cnt - 1 }

/-- task_signal.c:962 `psm_dequeue_ve_signal`: pick the next signal via
`psm_get_next_ve_signal` and collect it when one exists. -/
def psm_dequeue_ve_signal (s : SigState) (blocked : Nat) :
    Nat × SigState :=
  let sig := psm_get_next_ve_signal s.mask blocked
  if sig ≠ 0 then (sig, ve_collect_signal s sig) else (0, s)

/-- One step of the per-task signal-queue system: an enqueue
(`psm_send_ve_signal`, with a valid signal number 1..64) or a dequeue
(`psm_dequeue_ve_signal`, with an arbitrary blocked mask). -/
inductive SigStep : SigState → SigState → Prop where
  | enqueue (s : SigState) (sig flag : Nat) (override : Bool)
      (h1 : 1 ≤ sig) (h64 : sig ≤ 64) :
      SigStep s (psm_send_ve_signal s sig flag override)
  | dequeue (s : SigState) (blocked : Nat) (hb : blocked < MOD64) :
      SigStep s (psm_dequeue_ve_signal s blocked).2

/-- Initial per-task signal state: empty queue and mask. -/
def SigInit (rlim : Nat) (cd : Bool) : SigState :=
  { queue := [], mask := 0, sigpending_cnt := 0, rlim := rlim,
    coredump_in_progress := cd, dropped := false }

/-- States reachable from an initial state by enqueue/dequeue steps. -/
inductive SigReachable : SigState → Prop where
  | init (rlim : Nat) (cd : Bool) : SigReachable (SigInit rlim cd)
  | step {s s' : SigState} :
      SigReachable s → SigStep s s' → SigReachable s'

/-- The inductive invariant of the signal-queue system:
(1) every record's signal number is a valid signal 1..64;
(2) every record's bit is set in the pending mask;
(3) non-real-time signals have at most one record;
(4) unless a rate-limit drop has occurred, every set bit has a record;
(5) a pending `SIGCONT` record and a pending stop record never
    coexist. -/
def SigInv (s : SigState) : Prop :=
  (∀ r ∈ s.queue, 1 ≤ r.signo ∧ r.signo ≤ 64) ∧
  (∀ r ∈ s.queue, sigismember s.mask r.signo = true) ∧
  (∀ sig, sig < SIGRTMIN → countSig s.queue sig ≤ 1) ∧
  (s.dropped = false → ∀ sig, 1 ≤ sig → sig ≤ 64 →
    sigismember s.mask sig = true → 1 ≤ countSig s.queue sig) ∧
  ¬ (1 ≤ countSig s.queue SIGCONT ∧
     ∃ r ∈ s.queue, sigismember VE_SIG_STOP_MASK r.signo = true)

/-! ### Bit-level lemmas about `sigaddset` / `sigdelset` -/

theorem sigismember_sigaddset (m a sig : Nat)
    (ha1 : 1 ≤ a) (ha : a ≤ 64) (h1 : 1 ≤ sig) (h : sig ≤ 64) :
    sigismember (sigaddset m a) sig =
      (sigismember m sig || decide (sig = a)) := by
  unfold sigismember sigaddset sigBit
  rw [Nat.testBit_lor]
  congr 1
  rw [Nat.testBit_two_pow]
  by_cases hsa : sig = a
  · subst hsa; simp
  · have hne : a - 1 ≠ sig - 1 := by omega
    simp [hne, hsa]

theorem sigismember_sigdelset (m a sig : Nat)
    (ha1 : 1 ≤ a) (ha : a ≤ 64) (h1 : 1 ≤ sig) (h : sig ≤ 64) :
    sigismember (sigdelset m a) sig =
      (sigismember m sig && ! decide (sig = a)) := by
  unfold sigismember sigdelset not64 sigBit MOD64
  rw [Nat.testBit_land, Nat.testBit_xor, Nat.testBit_two_pow]
  have hword : Nat.testBit (18446744073709551616 - 1) (sig - 1) = true := by
    have he : (18446744073709551616 : Nat) = 2 ^ 64 := by norm_num
    rw [he, Nat.testBit_two_pow_sub_one]
    simp only [decide_eq_true_eq]
    omega
  rw [hword]
  by_cases hsa : sig = a
  · subst hsa; simp
  · have hne : a - 1 ≠ sig - 1 := by omega
    simp [hne, hsa]

/-! ### List lemmas about `countSig` and `removeFirst` -/

theorem countSig_nil (sig : Nat) : countSig [] sig = 0 := rfl

theorem countSig_append_single (q : List ve_sigqueue) (r : ve_sigqueue)
    (sig : Nat) :
    countSig (q ++ [r]) sig =
      countSig q sig + (if r.signo = sig then 1 else 0) := by
  unfold countSig
  rw [List.filter_append, List.length_append]
  congr 1
  by_cases h : r.signo = sig <;> simp [h]

theorem countSig_pos_iff (q : List ve_sigqueue) (sig : Nat) :
    1 ≤ countSig q sig ↔ ∃ r ∈ q, r.signo = sig := by
  unfold countSig
  rw [Nat.one_le_iff_ne_zero]
  constructor
  · intro h
    have : (q.filter fun r => r.signo = sig) ≠ [] := by
      intro hnil; rw [hnil] at h; exact h rfl
    obtain ⟨r, hr⟩ := List.exists_mem_of_ne_nil _ this
    have := List.mem_filter.mp hr
    exact ⟨r, this.1, by simpa using this.2⟩
  · intro ⟨r, hrq, hsig⟩
    intro hlen
    rw [List.length_eq_zero] at hlen
    have : r ∈ q.filter fun r => r.signo = sig :=
      List.mem_filter.mpr ⟨hrq, by simpa using hsig⟩
    rw [hlen] at this
    exact List.not_mem_nil r this

theorem removeFirst_subset {q : List ve_sigqueue} {sig : Nat}
    {r : ve_sigqueue} (h : r ∈ (removeFirst q sig).1) : r ∈ q := by
  induction q with
  | nil => simp [removeFirst] at h
  | cons a rest ih =>
    unfold removeFirst at h
    by_cases ha : a.signo = sig
    · rw [if_pos ha] at h
      exact List.mem_cons_of_mem a h
    · rw [if_neg ha] at h
      rcases List.mem_cons.mp h with h | h
      · exact h ▸ List.mem_cons_self a rest
      · exact List.mem_cons_of_mem a (ih h)

theorem removeFirst_found_iff (q : List ve_sigqueue) (sig : Nat) :
    (removeFirst q sig).2 = true ↔ 1 ≤ countSig q sig := by
  induction q with
  | nil => simp [removeFirst, countSig]
  | cons a rest ih =>
    unfold removeFirst
    by_cases ha : a.signo = sig
    · rw [if_pos ha]
      simp only [true_iff]
      rw [countSig_pos_iff]
      exact ⟨a, List.mem_cons_self a rest, ha⟩
    · rw [if_neg ha]
      simp only
      rw [ih, countSig_pos_iff, countSig_pos_iff]
      constructor
      · intro ⟨r, hr, hs⟩
        exact ⟨r, List.mem_cons_of_mem a hr, hs⟩
      · intro ⟨r, hr, hs⟩
        rcases List.mem_cons.mp hr with h | h
        · exact absurd (h ▸ hs) ha
        · exact ⟨r, h, hs⟩

theorem countSig_removeFirst_self (q : List ve_sigqueue) (sig : Nat)
    (h : (removeFirst q sig).2 = true) :
    countSig (removeFirst q sig).1 sig = countSig q sig - 1 := by
  induction q with
  | nil => simp [removeFirst] at h
  | cons a rest ih =>
    unfold removeFirst at h ⊢
    by_cases ha : a.signo = sig
    · rw [if_pos ha] at h ⊢
      simp only
      unfold countSig
      rw [List.filter_cons_of_pos (by simpa using ha)]
      simp
    · rw [if_neg ha] at h ⊢
      simp only at h ⊢
      unfold countSig
      rw [List.filter_cons_of_neg (by simpa using ha),
        List.filter_cons_of_neg (by simpa using ha)]
      have h1 := ih h
      unfold countSig at h1
      rw [h1]

theorem countSig_removeFirst_other (q : List ve_sigqueue) (sig sig' : Nat)
    (hne : sig' ≠ sig) :
    countSig (removeFirst q sig).1 sig' = countSig q sig' := by
  induction q with
  | nil => simp [removeFirst]
  | cons a rest ih =>
    unfold removeFirst
    by_cases ha : a.signo = sig
    · rw [if_pos ha]
      simp only
      unfold countSig
      rw [List.filter_cons_of_neg (by simp; omega)]
    · rw [if_neg ha]
      simp only
      unfold countSig
      by_cases ha' : a.signo = sig'
      · rw [List.filter_cons_of_pos (by simpa using ha'),
          List.filter_cons_of_pos (by simpa using ha')]
        simp only [List.length_cons]
        have := ih
        unfold countSig at this
        rw [this]
      · rw [List.filter_cons_of_neg (by simpa using ha'),
          List.filter_cons_of_neg (by simpa using ha')]
        have := ih
        unfold countSig at this
        rw [this]

theorem removeFirst_not_found (q : List ve_sigqueue) (sig : Nat)
    (h : (removeFirst q sig).2 = false) : (removeFirst q sig).1 = q := by
  induction q with
  | nil => rfl
  | cons a rest ih =>
    unfold removeFirst at h ⊢
    by_cases ha : a.signo = sig
    · rw [if_pos ha] at h; simp at h
    · rw [if_neg ha] at h ⊢
      simp only at h ⊢
      rw [ih h]

/-! ### Lemmas about `ve_group_action_continue` -/

theorem continue_queue_eq_filter (q : List ve_sigqueue) (m : Nat) :
    (ve_group_action_continue q m).1 =
      q.filter fun r => ! sigismember VE_SIG_STOP_MASK r.signo := by
  induction q generalizing m with
  | nil => rfl
  | cons a rest ih =>
    unfold ve_group_action_continue
    by_cases ha : sigismember VE_SIG_STOP_MASK a.signo = true
    · rw [if_pos ha, List.filter_cons_of_neg (by simp [ha])]
      exact ih _
    · rw [if_neg ha]
      simp only
      rw [List.filter_cons_of_pos
        (by simp [Bool.eq_false_iff.mpr ha])]
      rw [ih m]

theorem continue_mask_spec (q : List ve_sigqueue) (m : Nat) (sig : Nat)
    (h1 : 1 ≤ sig) (h64 : sig ≤ 64)
    (hq : ∀ r ∈ q, 1 ≤ r.signo ∧ r.signo ≤ 64) :
    sigismember (ve_group_action_continue q m).2 sig =
      (sigismember m sig &&
        decide (∀ r ∈ q, sigismember VE_SIG_STOP_MASK r.signo = true →
          r.signo ≠ sig)) := by
  induction q generalizing m with
  | nil => simp [ve_group_action_continue]
  | cons a rest ih =>
    have ha64 := hq a (List.mem_cons_self a rest)
    have hrest : ∀ r ∈ rest, 1 ≤ r.signo ∧ r.signo ≤ 64 :=
      fun r hr => hq r (List.mem_cons_of_mem a hr)
    unfold ve_group_action_continue
    by_cases ha : sigismember VE_SIG_STOP_MASK a.signo = true
    · rw [if_pos ha]
      rw [ih _ hrest]
      rw [sigismember_sigdelset m a.signo sig ha64.1 ha64.2 h1 h64]
      by_cases has : a.signo = sig
      · have hL : (! decide (sig = a.signo)) = false := by simp [has]
        rw [hL, Bool.and_false, Bool.false_and]
        have hR : decide (∀ r ∈ a :: rest,
            sigismember VE_SIG_STOP_MASK r.signo = true →
              r.signo ≠ sig) = false := by
          simp only [decide_eq_false_iff_not]
          intro hall
          exact (hall a (List.mem_cons_self a rest) ha) has
        rw [hR, Bool.and_false]
      · simp [ha, has, Ne.symm has]
    · rw [if_neg ha]
      simp only
      rw [ih m hrest]
      have ha' : sigismember VE_SIG_STOP_MASK a.signo = false :=
        Bool.eq_false_iff.mpr ha
      simp [ha']

/-! ### Range and counting helper lemmas -/

theorem mod64_pow : MOD64 = 2 ^ 64 := by unfold MOD64; norm_num

theorem ffsl_le_64 {x : Nat} (hx : x ≠ 0) (hlt : x < 2 ^ 64) :
    ffsl x ≤ 64 := by
  by_contra hgt
  have h64 : 64 ≤ ffsl x - 1 := by omega
  have : x < 2 ^ (ffsl x - 1) :=
    lt_of_lt_of_le hlt (Nat.pow_le_pow_right (by omega) h64)
  have := Nat.testBit_lt_two_pow this
  rw [ffsl_testBit hx] at this
  simp at this

theorem psm_get_next_range (m b : Nat) (hb : b < MOD64)
    (h : psm_get_next_ve_signal m b ≠ 0) :
    1 ≤ psm_get_next_ve_signal m b ∧ psm_get_next_ve_signal m b ≤ 64 := by
  have hb' : b < 2 ^ 64 := mod64_pow ▸ hb
  have hnot : not64 b < 2 ^ 64 := by
    unfold not64
    rw [mod64_pow]
    exact Nat.xor_lt_two_pow (by omega) hb'
  have heff : m &&& not64 b < 2 ^ 64 :=
    lt_of_le_of_lt Nat.and_le_right hnot
  unfold psm_get_next_ve_signal at h ⊢
  by_cases he : m &&& not64 b ≠ 0
  · rw [if_pos he]
    by_cases hs : m &&& not64 b &&& VE_SYNCHRONOUS_MASK ≠ 0
    · rw [if_pos hs]
      have hlt : m &&& not64 b &&& VE_SYNCHRONOUS_MASK < 2 ^ 64 :=
        lt_of_le_of_lt Nat.and_le_left heff
      exact ⟨ffsl_pos hs, ffsl_le_64 hs hlt⟩
    · rw [if_neg hs]
      exact ⟨ffsl_pos he, ffsl_le_64 he heff⟩
  · rw [if_neg he] at h
    exact absurd rfl h

theorem countSig_filter_le (q : List ve_sigqueue)
    (p : ve_sigqueue → Bool) (sig : Nat) :
    countSig (q.filter p) sig ≤ countSig q sig := by
  unfold countSig
  exact ((q.filter_sublist.filter _)).length_le

theorem countSig_removeFirst_le (q : List ve_sigqueue) (sig sig' : Nat) :
    countSig (removeFirst q sig).1 sig' ≤ countSig q sig' := by
  by_cases he : sig' = sig
  · subst he
    cases hf : (removeFirst q sig').2
    · rw [removeFirst_not_found _ _ hf]
    · rw [countSig_removeFirst_self _ _ hf]; omega
  · rw [countSig_removeFirst_other _ _ _ he]

theorem stop_mask_cont_false :
    sigismember VE_SIG_STOP_MASK SIGCONT = false := by decide

theorem stop_ne_cont {sig : Nat}
    (h : sigismember VE_SIG_STOP_MASK sig = true) : sig ≠ SIGCONT := by
  intro hc
  rw [hc, stop_mask_cont_false] at h
  simp at h

theorem sigismember_sigaddset_mono {m a sig : Nat}
    (ha1 : 1 ≤ a) (ha : a ≤ 64) (h1 : 1 ≤ sig) (h : sig ≤ 64)
    (hm : sigismember m sig = true) :
    sigismember (sigaddset m a) sig = true := by
  rw [sigismember_sigaddset m a sig ha1 ha h1 h, hm, Bool.true_or]

/-! ### Invariant preservation -/

theorem continue_preserves_SigInv (s : SigState) (hinv : SigInv s) :
    SigInv { s with queue := (ve_group_action_continue s.queue s.mask).1,
                    mask := (ve_group_action_continue s.queue s.mask).2 } ∧
    (∀ r ∈ (ve_group_action_continue s.queue s.mask).1,
      sigismember VE_SIG_STOP_MASK r.signo = false) := by
  obtain ⟨hSig, hQM, hB, hNG, hD⟩ := hinv
  have hmem : ∀ r, r ∈ (ve_group_action_continue s.queue s.mask).1 ↔
      r ∈ s.queue ∧ sigismember VE_SIG_STOP_MASK r.signo = false := by
    intro r
    rw [continue_queue_eq_filter, List.mem_filter]
    simp
  refine ⟨⟨?_, ?_, ?_, ?_, ?_⟩, fun r hr => ((hmem r).mp hr).2⟩
  · intro r hr
    exact hSig r ((hmem r).mp hr).1
  · intro r hr
    obtain ⟨hrq, hrs⟩ := (hmem r).mp hr
    have hr64 := hSig r hrq
    show sigismember (ve_group_action_continue s.queue s.mask).2
      r.signo = true
    rw [continue_mask_spec s.queue s.mask r.signo hr64.1 hr64.2 hSig,
      hQM r hrq]
    simp only [Bool.true_and, decide_eq_true_eq]
    intro r' hr' hstop' heq
    rw [heq, hrs] at hstop'
    exact Bool.false_ne_true hstop'
  · intro sig hsig
    show countSig (ve_group_action_continue s.queue s.mask).1 sig ≤ 1
    rw [continue_queue_eq_filter]
    exact le_trans (countSig_filter_le _ _ _) (hB sig hsig)
  · intro hdrop sig h1 h64 hbit
    have hbit' : sigismember (ve_group_action_continue s.queue s.mask).2
        sig = true := hbit
    rw [continue_mask_spec s.queue s.mask sig h1 h64 hSig,
      Bool.and_eq_true, decide_eq_true_eq] at hbit'
    obtain ⟨hm, hP⟩ := hbit'
    have hc := hNG hdrop sig h1 h64 hm
    obtain ⟨r, hrq, hrs⟩ := (countSig_pos_iff _ _).mp hc
    have hrstop : sigismember VE_SIG_STOP_MASK r.signo = false := by
      cases hx : sigismember VE_SIG_STOP_MASK r.signo
      · rfl
      · exact absurd hrs (hP r hrq hx)
    exact (countSig_pos_iff _ _).mpr ⟨r, (hmem r).mpr ⟨hrq, hrstop⟩, hrs⟩
  · intro ⟨_, r, hr, hstop⟩
    rw [((hmem r).mp hr).2] at hstop
    exact Bool.false_ne_true hstop

theorem masking_cont_preserves_SigInv (s : SigState) (hinv : SigInv s) :
    SigInv { s with
        queue := (ve_group_action_masking s.queue s.mask SIGCONT).1,
        mask := (ve_group_action_masking s.queue s.mask SIGCONT).2 } ∧
    countSig (ve_group_action_masking s.queue s.mask SIGCONT).1
      SIGCONT = 0 := by
  obtain ⟨hSig, hQM, hB, hNG, hD⟩ := hinv
  cases hf : (removeFirst s.queue SIGCONT).2 with
  | false =>
    have hchar : ve_group_action_masking s.queue s.mask SIGCONT =
        (s.queue, s.mask) := by
      simp [ve_group_action_masking, hf]
    have hnone : countSig s.queue SIGCONT = 0 := by
      have := (removeFirst_found_iff s.queue SIGCONT).not.mp
        (by rw [hf]; simp)
      omega
    rw [hchar]
    exact ⟨⟨hSig, hQM, hB, hNG, hD⟩, hnone⟩
  | true =>
    have hchar : ve_group_action_masking s.queue s.mask SIGCONT =
        ((removeFirst s.queue SIGCONT).1, sigdelset s.mask SIGCONT) := by
      simp [ve_group_action_masking, hf]
    rw [hchar]
    have hcnt1 : countSig s.queue SIGCONT = 1 := by
      have hge := (removeFirst_found_iff s.queue SIGCONT).mp hf
      have hle := hB SIGCONT (by decide)
      omega
    have hcnt0 : countSig (removeFirst s.queue SIGCONT).1 SIGCONT = 0 := by
      rw [countSig_removeFirst_self _ _ hf, hcnt1]
    refine ⟨⟨?_, ?_, ?_, ?_, ?_⟩, hcnt0⟩
    · intro r hr
      exact hSig r (removeFirst_subset hr)
    · intro r hr
      have hrq := removeFirst_subset hr
      have hr64 := hSig r hrq
      have hrne : r.signo ≠ SIGCONT := by
        intro hc
        have : 1 ≤ countSig (removeFirst s.queue SIGCONT).1 SIGCONT :=
          (countSig_pos_iff _ _).mpr ⟨r, hr, hc⟩
        omega
      show sigismember (sigdelset s.mask SIGCONT) r.signo = true
      rw [sigismember_sigdelset s.mask SIGCONT r.signo (by decide)
        (by decide) hr64.1 hr64.2, hQM r hrq]
      simp [hrne]
    · intro sig hsig
      exact le_trans (countSig_removeFirst_le _ _ _) (hB sig hsig)
    · intro hdrop sig h1 h64 hbit
      have hbit' : sigismember (sigdelset s.mask SIGCONT) sig = true := hbit
      rw [sigismember_sigdelset s.mask SIGCONT sig (by decide) (by decide)
        h1 h64, Bool.and_eq_true] at hbit'
      obtain ⟨hm, hne⟩ := hbit'
      have hsigne : sig ≠ SIGCONT := by
        intro hc
        rw [hc] at hne
        simp at hne
      have := hNG hdrop sig h1 h64 hm
      rw [show countSig (removeFirst s.queue SIGCONT).1 sig =
          countSig s.queue sig from
        countSig_removeFirst_other _ _ _ hsigne]
      exact this
    · intro ⟨hcont, _⟩
      have hc : 1 ≤ countSig (removeFirst s.queue SIGCONT).1 SIGCONT :=
        hcont
      omega

/-- Combined facts about the group-action phase: it preserves the
invariant, after a `SIGCONT` no stop record is pending, and after a
stop signal no `SIGCONT` record is pending. -/
theorem group_part_facts (s : SigState) (sig : Nat) (hinv : SigInv s) :
    SigInv (psm_send_group_part s sig) ∧
    (sig = SIGCONT → ∀ r ∈ (psm_send_group_part s sig).queue,
      sigismember VE_SIG_STOP_MASK r.signo = false) ∧
    (sigismember VE_SIG_STOP_MASK sig = true →
      countSig (psm_send_group_part s sig).queue SIGCONT = 0) := by
  unfold psm_send_group_part
  by_cases hc : sig = SIGCONT
  · rw [if_pos hc]
    obtain ⟨h1, h2⟩ := continue_preserves_SigInv s hinv
    refine ⟨h1, fun _ => h2, ?_⟩
    intro hstop
    rw [hc] at hstop
    rw [stop_mask_cont_false] at hstop
    exact absurd hstop Bool.false_ne_true
  · rw [if_neg hc]
    by_cases hs : ve_sig_stop sig = true
    · rw [if_pos hs]
      obtain ⟨h1, h2⟩ := masking_cont_preserves_SigInv s hinv
      exact ⟨h1, fun hcc => absurd hcc hc, fun _ => h2⟩
    · rw [if_neg hs]
      refine ⟨hinv, fun hcc => absurd hcc hc, ?_⟩
      intro hstop
      exact absurd hstop (by unfold ve_sig_stop at hs; exact hs)

theorem queue_part_preserves_SigInv (s1 : SigState) (sig flag : Nat)
    (ovr : Bool) (h1 : 1 ≤ sig) (h64 : sig ≤ 64) (hinv : SigInv s1)
    (hCont : sig = SIGCONT → ∀ r ∈ s1.queue,
      sigismember VE_SIG_STOP_MASK r.signo = false)
    (hStop : sigismember VE_SIG_STOP_MASK sig = true →
      countSig s1.queue SIGCONT = 0) :
    SigInv (psm_send_queue_part s1 sig flag ovr) := by
  obtain ⟨hSig, hQM, hB, hNG, hD⟩ := hinv
  unfold psm_send_queue_part
  by_cases hleg : legacy_queue s1.mask sig = true
  · rw [if_pos hleg]
    exact ⟨hSig, hQM, hB, hNG, hD⟩
  · rw [if_neg hleg]
    by_cases halloc : (psm_ve_sigqueue_alloc s1.sigpending_cnt s1.rlim
        (if sig < SIGRTMIN then ovr else false)).2 = true
    · rw [if_pos halloc]
      refine ⟨?_, ?_, ?_, ?_, ?_⟩
      · intro r hr
        rcases List.mem_append.mp hr with h | h
        · exact hSig r h
        · rw [List.mem_singleton.mp h]
          exact ⟨h1, h64⟩
      · intro r hr
        rcases List.mem_append.mp hr with h | h
        · have hr64 := hSig r h
          exact sigismember_sigaddset_mono h1 h64 hr64.1 hr64.2 (hQM r h)
        · rw [List.mem_singleton.mp h]
          show sigismember (sigaddset s1.mask sig) sig = true
          rw [sigismember_sigaddset s1.mask sig sig h1 h64 h1 h64]
          simp
      · intro sig' hsig'
        show countSig (s1.queue ++ [⟨sig, flag⟩]) sig' ≤ 1
        rw [countSig_append_single]
        by_cases he : sig = sig'
        · subst he
          have hbit : sigismember s1.mask sig = false := by
            cases hx : sigismember s1.mask sig
            · rfl
            · exfalso
              apply hleg
              unfold legacy_queue
              rw [hx]
              simp [hsig']
          have hzero : countSig s1.queue sig = 0 := by
            by_contra hpos
            have hpos' : 1 ≤ countSig s1.queue sig := by omega
            obtain ⟨r, hrq, hrs⟩ := (countSig_pos_iff s1.queue sig).mp hpos'
            have hqr := hQM r hrq
            rw [hrs, hbit] at hqr
            exact Bool.false_ne_true hqr
          simp [hzero]
        · have hne : (⟨sig, flag⟩ : ve_sigqueue).signo ≠ sig' := he
          rw [if_neg hne]
          have := hB sig' hsig'
          omega
      · intro hdrop sig' h1' h64' hbit
        have hbit' : sigismember (sigaddset s1.mask sig) sig' = true := hbit
        rw [sigismember_sigaddset s1.mask sig sig' h1 h64 h1' h64',
          Bool.or_eq_true] at hbit'
        show 1 ≤ countSig (s1.queue ++ [⟨sig, flag⟩]) sig'
        rw [countSig_append_single]
        rcases hbit' with h | h
        · have := hNG hdrop sig' h1' h64' h
          omega
        · rw [decide_eq_true_eq] at h
          subst h
          simp
      · show ¬ (1 ≤ countSig (s1.queue ++ [⟨sig, flag⟩]) SIGCONT ∧
          ∃ r ∈ s1.queue ++ [⟨sig, flag⟩],
            sigismember VE_SIG_STOP_MASK r.signo = true)
        intro ⟨hcont, r, hr, hstop⟩
        by_cases hc : sig = SIGCONT
        · rcases List.mem_append.mp hr with h | h
          · rw [hCont hc r h] at hstop
            exact Bool.false_ne_true hstop
          · rw [List.mem_singleton.mp h] at hstop
            simp only at hstop
            rw [hc, stop_mask_cont_false] at hstop
            exact Bool.false_ne_true hstop
        · by_cases hs : sigismember VE_SIG_STOP_MASK sig = true
          · rw [countSig_append_single] at hcont
            have h0 := hStop hs
            have hne : (⟨sig, flag⟩ : ve_sigqueue).signo ≠ SIGCONT :=
              stop_ne_cont hs
            rw [if_neg hne] at hcont
            omega
          · rw [countSig_append_single] at hcont
            have hne : (⟨sig, flag⟩ : ve_sigqueue).signo ≠ SIGCONT := hc
            rw [if_neg hne] at hcont
            rcases List.mem_append.mp hr with h | h
            · exact hD ⟨by omega, r, h, hstop⟩
            · rw [List.mem_singleton.mp h] at hstop
              exact hs hstop
    · rw [if_neg halloc]
      refine ⟨hSig, ?_, hB, ?_, hD⟩
      · intro r hr
        have hr64 := hSig r hr
        exact sigismember_sigaddset_mono h1 h64 hr64.1 hr64.2 (hQM r hr)
      · intro hdrop
        simp at hdrop

theorem psm_send_preserves_SigInv (s : SigState) (sig flag : Nat)
    (ovr : Bool) (h1 : 1 ≤ sig) (h64 : sig ≤ 64) (hinv : SigInv s) :
    SigInv (psm_send_ve_signal s sig flag ovr) := by
  unfold psm_send_ve_signal
  by_cases hcd : s.coredump_in_progress = true
  · rw [if_pos hcd]
    exact hinv
  · rw [if_neg hcd]
    obtain ⟨hg, hc, hs⟩ := group_part_facts s sig hinv
    exact queue_part_preserves_SigInv _ sig flag ovr h1 h64 hg hc hs

theorem collect_preserves_SigInv (s : SigState) (sig : Nat)
    (h1 : 1 ≤ sig) (h64 : sig ≤ 64) (hinv : SigInv s) :
    SigInv (ve_collect_signal s sig) := by
  obtain ⟨hSig, hQM, hB, hNG, hD⟩ := hinv
  unfold ve_collect_signal
  by_cases hn0 : countSig s.queue sig = 0
  · rw [if_pos hn0]
    refine ⟨hSig, ?_, hB, ?_, hD⟩
    · intro r hr
      have hr64 := hSig r hr
      have hrne : r.signo ≠ sig := by
        intro hc
        have : 1 ≤ countSig s.queue sig :=
          (countSig_pos_iff _ _).mpr ⟨r, hr, hc⟩
        omega
      show sigismember (sigdelset s.mask sig) r.signo = true
      rw [sigismember_sigdelset s.mask sig r.signo h1 h64 hr64.1 hr64.2,
        hQM r hr]
      simp [hrne]
    · intro hdrop sig' h1' h64' hbit
      have hbit' : sigismember (sigdelset s.mask sig) sig' = true := hbit
      rw [sigismember_sigdelset s.mask sig sig' h1 h64 h1' h64',
        Bool.and_eq_true] at hbit'
      exact hNG hdrop sig' h1' h64' hbit'.1
  · rw [if_neg hn0]
    by_cases hn1 : countSig s.queue sig = 1
    · rw [if_pos hn1]
      have hfound : (removeFirst s.queue sig).2 = true :=
        (removeFirst_found_iff _ _).mpr (by omega)
      have hzero : countSig (removeFirst s.queue sig).1 sig = 0 := by
        rw [countSig_removeFirst_self _ _ hfound, hn1]
      refine ⟨?_, ?_, ?_, ?_, ?_⟩
      · intro r hr
        exact hSig r (removeFirst_subset hr)
      · intro r hr
        have hrq := removeFirst_subset hr
        have hr64 := hSig r hrq
        have hrne : r.signo ≠ sig := by
          intro hc
          have : 1 ≤ countSig (removeFirst s.queue sig).1 sig :=
            (countSig_pos_iff _ _).mpr ⟨r, hr, hc⟩
          omega
        show sigismember (sigdelset s.mask sig) r.signo = true
        rw [sigismember_sigdelset s.mask sig r.signo h1 h64 hr64.1
          hr64.2, hQM r hrq]
        simp [hrne]
      · intro sig' hsig'
        exact le_trans (countSig_removeFirst_le _ _ _) (hB sig' hsig')
      · intro hdrop sig' h1' h64' hbit
        have hbit' : sigismember (sigdelset s.mask sig) sig' = true := hbit
        rw [sigismember_sigdelset s.mask sig sig' h1 h64 h1' h64',
          Bool.and_eq_true] at hbit'
        obtain ⟨hm, hne⟩ := hbit'
        have hsigne : sig' ≠ sig := by
          intro hc
          rw [hc] at hne
          simp at hne
        have := hNG hdrop sig' h1' h64' hm
        show 1 ≤ countSig (removeFirst s.queue sig).1 sig'
        rw [countSig_removeFirst_other _ _ _ hsigne]
        exact this
      · intro ⟨hcont, r, hr, hstop⟩
        exact hD ⟨le_trans hcont (countSig_removeFirst_le _ _ _),
          r, removeFirst_subset hr, hstop⟩
    · rw [if_neg hn1]
      have hfound : (removeFirst s.queue sig).2 = true :=
        (removeFirst_found_iff _ _).mpr (by omega)
      refine ⟨?_, ?_, ?_, ?_, ?_⟩
      · intro r hr
        exact hSig r (removeFirst_subset hr)
      · intro r hr
        exact hQM r (removeFirst_subset hr)
      · intro sig' hsig'
        exact le_trans (countSig_removeFirst_le _ _ _) (hB sig' hsig')
      · intro hdrop sig' h1' h64' hbit
        show 1 ≤ countSig (removeFirst s.queue sig).1 sig'
        by_cases he : sig' = sig
        · subst he
          rw [countSig_removeFirst_self _ _ hfound]
          omega
        · rw [countSig_removeFirst_other _ _ _ he]
          exact hNG hdrop sig' h1' h64' hbit
      · intro ⟨hcont, r, hr, hstop⟩
        exact hD ⟨le_trans hcont (countSig_removeFirst_le _ _ _),
          r, removeFirst_subset hr, hstop⟩

theorem psm_dequeue_preserves_SigInv (s : SigState) (blocked : Nat)
    (hb : blocked < MOD64) (hinv : SigInv s) :
    SigInv (psm_dequeue_ve_signal s blocked).2 := by
  unfold psm_dequeue_ve_signal
  by_cases hz : psm_get_next_ve_signal s.mask blocked ≠ 0
  · rw [if_pos hz]
    obtain ⟨hr1, hr64⟩ := psm_get_next_range s.mask blocked hb hz
    exact collect_preserves_SigInv s _ hr1 hr64 hinv
  · rw [if_neg hz]
    exact hinv

theorem SigInit_inv (rlim : Nat) (cd : Bool) : SigInv (SigInit rlim cd) := by
  refine ⟨?_, ?_, ?_, ?_, ?_⟩
  · intro r hr; exact absurd hr (List.not_mem_nil r)
  · intro r hr; exact absurd hr (List.not_mem_nil r)
  · intro sig _; simp [SigInit, countSig]
  · intro _ sig h1 h64 hbit
    exact absurd hbit (by simp [SigInit, sigismember])
  · intro ⟨hcont, _⟩
    simp [SigInit, countSig] at hcont

theorem SigReachable_inv {s : SigState} (h : SigReachable s) : SigInv s := by
  induction h with
  | init rlim cd => exact SigInit_inv rlim cd
  | step _ hstep ih =>
    cases hstep with
    | enqueue sig flag ovr h1 h64 =>
      exact psm_send_preserves_SigInv _ sig flag ovr h1 h64 ih
    | dequeue blocked hb =>
      exact psm_dequeue_preserves_SigInv _ blocked hb ih

theorem continue_mask_of_no_stop (q : List ve_sigqueue) (m : Nat)
    (h : ∀ r ∈ q, sigismember VE_SIG_STOP_MASK r.signo = false) :
    (ve_group_action_continue q m).2 = m := by
  induction q generalizing m with
  | nil => rfl
  | cons a rest ih =>
    unfold ve_group_action_continue
    rw [if_neg (by
      rw [h a (List.mem_cons_self a rest)]
      exact Bool.false_ne_true)]
    exact ih m fun r hr => h r (List.mem_cons_of_mem a hr)

/-- **C7.** In every task signal state reachable by enqueue
(`psm_send_ve_signal`) and dequeue (`psm_dequeue_ve_signal` /
`ve_collect_signal`) operations, every record in the pending queue has
its signal bit set in the pending mask, and a set bit with no
corresponding record can only exist after some enqueue dropped its
record at the signal-pending resource limit (the ghost flag
`dropped`). -/
theorem sig_queue_mask_invariant (s : SigState) (h : SigReachable s) :
    (∀ r ∈ s.queue, sigismember s.mask r.signo = true) ∧
    (s.dropped = false → ∀ sig, 1 ≤ sig → sig ≤ 64 →
      sigismember s.mask sig = true → ∃ r ∈ s.queue, r.signo = sig) := by
  obtain ⟨_, hQM, _, hNG, _⟩ := SigReachable_inv h
  exact ⟨hQM, fun hd sig h1 h64 hb =>
    (countSig_pos_iff _ _).mp (hNG hd sig h1 h64 hb)⟩

/-- Witness for **C7**: after enqueueing `SIGUSR1` into a fresh state,
the theorem yields that the queued `SIGUSR1` record's bit is set. -/
theorem sig_queue_mask_invariant_witness :
    sigismember
      (psm_send_ve_signal (SigInit 16 false) SIGUSR1 0 false).mask
      (⟨SIGUSR1, 0⟩ : ve_sigqueue).signo = true :=
  (sig_queue_mask_invariant _
    (SigReachable.step (SigReachable.init 16 false)
      (SigStep.enqueue _ SIGUSR1 0 false (by decide) (by decide)))).1
    ⟨SIGUSR1, 0⟩ (by decide)

/-- **C6 counterexample.** An enqueue of the real-time signal
`SIGRTMIN + 3 = 37` into a state whose signal-pending resource limit
is 0 adds no record (the record is dropped; only the mask bit is set),
so "every enqueue of a real-time signal adds a record" is false. -/
theorem rt_enqueue_drop_counterexample :
    SIGRTMIN ≤ 37 ∧
    (psm_send_ve_signal (SigInit 0 false) 37 0 false).queue = [] ∧
    sigismember (psm_send_ve_signal (SigInit 0 false) 37 0 false).mask
      37 = true := by
  refine ⟨by decide, rfl, by decide⟩

/-- The S3 scenario state: `SIGUSR1` enqueued twice, then
`SIGRTMIN + 3 = 37` three times, from a fresh state with a
signal-pending limit of 16. -/
def coalesceScenario : SigState :=
  psm_send_ve_signal (psm_send_ve_signal (psm_send_ve_signal
    (psm_send_ve_signal (psm_send_ve_signal (SigInit 16 false)
      SIGUSR1 0 false) SIGUSR1 0 false) 37 0 false) 37 0 false) 37 0 false

/-- **C6 (amended).** Enqueueing a non-real-time signal while a record
with the same signal number is pending adds no record and leaves the
queue and pending mask unchanged (stated for states satisfying the
queue invariant, which all reachable states do); every enqueue of a
real-time signal adds a record *provided* no group coredump is in
progress and the signal-pending resource limit is not exceeded; with a
sufficient limit, enqueueing `SIGUSR1` twice and `SIGRTMIN+3` three
times yields a pending-queue length of `1 + 3 = 4` with both mask bits
set. -/
theorem nonrt_coalesce_rt_append_spec :
    (∀ (s : SigState) (sig flag : Nat) (ovr : Bool),
      SigInv s → 1 ≤ sig → sig < SIGRTMIN →
      (∃ r ∈ s.queue, r.signo = sig) →
      (psm_send_ve_signal s sig flag ovr).queue = s.queue ∧
      (psm_send_ve_signal s sig flag ovr).mask = s.mask) ∧
    (∀ (s : SigState) (sig flag : Nat) (ovr : Bool),
      s.coredump_in_progress = false → SIGRTMIN ≤ sig →
      s.sigpending_cnt + 1 ≤ s.rlim →
      (psm_send_ve_signal s sig flag ovr).queue =
        s.queue ++ [⟨sig, flag⟩]) ∧
    (coalesceScenario.queue.length = 4 ∧
      sigismember coalesceScenario.mask SIGUSR1 = true ∧
      sigismember coalesceScenario.mask 37 = true) := by
  refine ⟨?_, ?_, by decide, by decide, by decide⟩
  · intro s sig flag ovr hinv h1 hrt hrec
    obtain ⟨hSig, hQM, hB, hNG, hD⟩ := hinv
    obtain ⟨r, hrq, hrs⟩ := hrec
    have hbit : sigismember s.mask sig = true := by
      rw [← hrs]; exact hQM r hrq
    unfold psm_send_ve_signal
    by_cases hcd : s.coredump_in_progress = true
    · rw [if_pos hcd]; exact ⟨rfl, rfl⟩
    rw [if_neg hcd]
    have hgroup : psm_send_group_part s sig = s := by
      unfold psm_send_group_part
      by_cases hc : sig = SIGCONT
      · rw [if_pos hc]
        have hnostop : ∀ r' ∈ s.queue,
            sigismember VE_SIG_STOP_MASK r'.signo = false := by
          intro r' hr'
          cases hx : sigismember VE_SIG_STOP_MASK r'.signo
          · rfl
          · exact absurd
              ⟨(countSig_pos_iff s.queue SIGCONT).mpr
                ⟨r, hrq, by rw [hrs, hc]⟩, r', hr', hx⟩ hD
        have hq : (ve_group_action_continue s.queue s.mask).1 = s.queue := by
          rw [continue_queue_eq_filter]
          apply List.filter_eq_self.mpr
          intro a ha
          rw [hnostop a ha]
          rfl
        have hm : (ve_group_action_continue s.queue s.mask).2 = s.mask :=
          continue_mask_of_no_stop s.queue s.mask hnostop
        rw [hq, hm]
      · rw [if_neg hc]
        by_cases hs : ve_sig_stop sig = true
        · rw [if_pos hs]
          have hnocont : (removeFirst s.queue SIGCONT).2 = false := by
            cases hx : (removeFirst s.queue SIGCONT).2
            · rfl
            · exact absurd
                ⟨(removeFirst_found_iff s.queue SIGCONT).mp hx, r, hrq, by
                  rw [hrs]
                  unfold ve_sig_stop at hs
                  exact hs⟩ hD
          have hmask : ve_group_action_masking s.queue s.mask SIGCONT =
              (s.queue, s.mask) := by
            simp [ve_group_action_masking, hnocont]
          rw [hmask]
        · rw [if_neg hs]
    rw [hgroup]
    unfold psm_send_queue_part
    rw [if_pos (by
      unfold legacy_queue
      rw [hbit]
      simp [hrt])]
    exact ⟨rfl, rfl⟩
  · intro s sig flag ovr hcd hrtmin hcnt
    have h34 : 34 ≤ sig := hrtmin
    unfold psm_send_ve_signal
    rw [if_neg (by rw [hcd]; exact Bool.false_ne_true)]
    have hc : sig ≠ SIGCONT := by
      intro hco
      rw [hco] at h34
      exact absurd h34 (by decide)
    have hs : ve_sig_stop sig = false := by
      cases hx : ve_sig_stop sig
      · rfl
      · exfalso
        unfold ve_sig_stop sigismember at hx
        have hlt : VE_SIG_STOP_MASK < 2 ^ (sig - 1) :=
          lt_of_lt_of_le (by decide : VE_SIG_STOP_MASK < 2 ^ 22)
            (Nat.pow_le_pow_right (by omega) (by omega))
        rw [Nat.testBit_lt_two_pow hlt] at hx
        exact Bool.false_ne_true hx
    have hgroup : psm_send_group_part s sig = s := by
      unfold psm_send_group_part
      rw [if_neg hc, if_neg (by rw [hs]; exact Bool.false_ne_true)]
    rw [hgroup]
    unfold psm_send_queue_part
    have hnrt : ¬ sig < SIGRTMIN := by
      intro hlt
      have : sig < 34 := hlt
      omega
    rw [if_neg (by
      unfold legacy_queue
      rw [decide_eq_false hnrt]
      simp)]
    have halloc : (psm_ve_sigqueue_alloc s.sigpending_cnt s.rlim
        (if sig < SIGRTMIN then ovr else false)).2 = true := by
      rw [if_neg hnrt]
      unfold psm_ve_sigqueue_alloc
      simp [hcnt]
    rw [if_pos halloc]

/-- Witness for **C6 (amended)**: a second `SIGUSR1` enqueue into a
state already holding a `SIGUSR1` record changes neither the queue nor
the mask. -/
theorem nonrt_coalesce_rt_append_spec_witness :
    (psm_send_ve_signal
        (psm_send_ve_signal (SigInit 16 false) SIGUSR1 0 false)
        SIGUSR1 0 false).queue =
      (psm_send_ve_signal (SigInit 16 false) SIGUSR1 0 false).queue ∧
    (psm_send_ve_signal
        (psm_send_ve_signal (SigInit 16 false) SIGUSR1 0 false)
        SIGUSR1 0 false).mask =
      (psm_send_ve_signal (SigInit 16 false) SIGUSR1 0 false).mask :=
  nonrt_coalesce_rt_append_spec.1
    (psm_send_ve_signal (SigInit 16 false) SIGUSR1 0 false)
    SIGUSR1 0 false
    (SigReachable_inv
      (SigReachable.step (SigReachable.init 16 false)
        (SigStep.enqueue _ SIGUSR1 0 false (by decide) (by decide))))
    (by decide) (by decide) ⟨⟨SIGUSR1, 0⟩, by decide, rfl⟩

/-!
## Host-to-accelerator transfer: `ve_send_data` (mm_transfer.c)

Accelerator memory is a byte-addressable map `Nat → Nat`; the caller's
buffer is likewise a map from byte index to byte.  The DMA transport
(`amm_dma_xfer_req`, a socket round trip to the veos DMA engine)
copies exactly the requested bytes; `_ve_send_data_ipc` rejects a
length that is not a multiple of 8 (mm_transfer.c:75-78).
-/

def Mem : Type := Nat → Nat

/-- `memcpy(dst + start, src, len)` on an index-addressed buffer. -/
def updateRange (f : Nat → Nat) (start : Nat) (src : Nat → Nat)
    (len : Nat) : Nat → Nat :=
  fun i => if start ≤ i ∧ i < start + len then src (i - start) else f i

/-- mm_transfer.c:96 `struct addr_struct`. -/
structure addr_struct where
  top_address : Nat
  bottom_address : Nat
  aligned_top_address : Nat
  aligned_bottom_address : Nat
  top_offset : Nat
  bottom_offset : Nat
  new_datasize : Nat
deriving DecidableEq, Repr

/-- mm_transfer.c:111 `calc_address`: 8-byte-align the top address
downwards (`top & ~(8-1)`) and the bottom address upwards. -/
def calc_address (top bottom : Nat) : addr_struct :=
  if bottom % 8 ≠ 0 then
    { top_address := top, bottom_address := bottom,
      aligned_top_address := top &&& not64 7,
      aligned_bottom_address := (bottom &&& not64 7) + 8,
      top_offset := top - (top &&& not64 7),
      bottom_offset := ((bottom &&& not64 7) + 8) - bottom,
      new_datasize := ((bottom &&& not64 7) + 8) - (top &&& not64 7) }
  else
    { top_address := top, bottom_address := bottom,
      aligned_top_address := top &&& not64 7,
      aligned_bottom_address := bottom,
      top_offset := top - (top &&& not64 7),
      bottom_offset := 0,
      new_datasize := bottom - (top &&& not64 7) }

/-- mm_transfer.c:67 `_ve_send_data_ipc` followed by the DMA transfer:
reject a non-multiple-of-8 length, otherwise write `datasize` bytes of
`buff` into accelerator memory at `address`. -/
def _ve_send_data_ipc (mem : Mem) (address datasize : Nat)
    (buff : Nat → Nat) : Except Int Mem :=
  if datasize % 8 ≠ 0 then .error (-EINVAL)
  else .ok fun a =>
    if address ≤ a ∧ a < address + datasize then buff (a - address)
    else mem a

/-- mm_transfer.c:263 `ve_recv_data`, byte-level effect: read `n`
bytes of accelerator memory starting at `address` (the source expands
the read to the enclosing aligned span into a temporary buffer and
copies exactly these `n` bytes out of it). -/
def ve_recv_data (mem : Mem) (address : Nat) : Nat → Nat :=
  fun i => mem (address + i)

/-- The transfer buffer of mm_transfer.c:205-235: read the 8-byte word
containing the head of the range when `top_offset ≠ 0`, the word
containing the tail when `bottom_offset ≠ 0`, then `memcpy` the
caller's data over them at `top_offset`.  The freshly `malloc`ed
buffer is modelled with zero-initialized cells; every cell inside the
span is overwritten before it is sent. -/
def ve_send_buff (mem : Mem) (as : addr_struct) (datasize : Nat)
    (data : Nat → Nat) : Nat → Nat :=
  updateRange
    (if as.bottom_offset ≠ 0 then
      updateRange
        (if as.top_offset ≠ 0 then
          updateRange (fun _ => 0) 0
            (ve_recv_data mem as.aligned_top_address) 8
        else (fun _ => 0))
        (as.new_datasize - 8)
        (ve_recv_data mem (as.aligned_bottom_address - 8)) 8
    else
      (if as.top_offset ≠ 0 then
        updateRange (fun _ => 0) 0
          (ve_recv_data mem as.aligned_top_address) 8
      else (fun _ => 0)))
    as.top_offset data datasize

/-- mm_transfer.c:180 `ve_send_data`: compute the aligned span
(`calc_address`), build the merged buffer, and send the whole aligned
span through `_ve_send_data_ipc`. -/
def ve_send_data (mem : Mem) (address datasize : Nat)
    (data : Nat → Nat) : Except Int Mem :=
  _ve_send_data_ipc mem
    (calc_address address (address + datasize)).aligned_top_address
    (calc_address address (address + datasize)).new_datasize
    (ve_send_buff mem (calc_address address (address + datasize))
      datasize data)

/-- `x & ~(8-1)` on a 64-bit value rounds down to a multiple of 8. -/
theorem and_not7_eq_alignDown8 (x : Nat) (hx : x < MOD64) :
    x &&& not64 7 = x - x % 8 := by
  have h8 : x - x % 8 = 8 * (x / 8) := by omega
  rw [h8]
  apply Nat.eq_of_testBit_eq
  intro i
  rw [Nat.testBit_land]
  have hnot : Nat.testBit (not64 7) i =
      (decide (3 ≤ i) && decide (i < 64)) := by
    unfold not64
    rw [Nat.testBit_xor]
    have hm : MOD64 - 1 = 2 ^ 64 - 1 := by rw [mod64_pow]
    have h7 : (7 : Nat) = 2 ^ 3 - 1 := by norm_num
    rw [hm, h7, Nat.testBit_two_pow_sub_one, Nat.testBit_two_pow_sub_one]
    by_cases h3 : i < 3 <;> by_cases h64 : i < 64 <;>
      simp [h3, h64] <;> omega
  rw [hnot]
  have hmul : (8 : Nat) * (x / 8) = (x / 8) <<< 3 := by
    rw [Nat.shiftLeft_eq]
    ring
  have hdiv : x / 8 = x >>> 3 := by
    rw [Nat.shiftRight_eq_div_pow]
  rw [hmul, hdiv, Nat.testBit_shiftLeft, Nat.testBit_shiftRight]
  by_cases h3 : 3 ≤ i
  · have hi : 3 + (i - 3) = i := by omega
    rw [hi]
    by_cases h64 : i < 64
    · simp [h3, h64]
    · have hz : Nat.testBit x i = false :=
        Nat.testBit_lt_two_pow (lt_of_lt_of_le (mod64_pow ▸ hx)
          (Nat.pow_le_pow_right (by omega) (by omega)))
      simp [h3, h64, hz]
  · simp [h3]

/-- Arithmetic characterization of `calc_address` for 64-bit inputs. -/
theorem calc_address_spec (top bottom : Nat)
    (htop : top < MOD64) (hbot : bottom < MOD64) :
    calc_address top bottom =
      { top_address := top, bottom_address := bottom,
        aligned_top_address := top - top % 8,
        top_offset := top % 8,
        aligned_bottom_address :=
          if bottom % 8 = 0 then bottom else bottom - bottom % 8 + 8,
        bottom_offset := if bottom % 8 = 0 then 0 else 8 - bottom % 8,
        new_datasize :=
          (if bottom % 8 = 0 then bottom else bottom - bottom % 8 + 8) -
            (top - top % 8) } := by
  unfold calc_address
  rw [and_not7_eq_alignDown8 top htop, and_not7_eq_alignDown8 bottom hbot]
  have hto : top - (top - top % 8) = top % 8 := by omega
  by_cases hb : bottom % 8 = 0
  · rw [if_neg (by omega), if_pos hb, hto]
    simp [hb]
  · rw [if_pos (by omega), if_neg hb, hto]
    have hbo : bottom - bottom % 8 + 8 - bottom = 8 - bottom % 8 := by
      have := Nat.mod_le bottom 8
      omega
    rw [hbo]
    simp [hb]

/-- Inside the caller's range, the merged buffer holds the caller's
bytes. -/
theorem ve_send_buff_data (mem : Mem) (as : addr_struct) (D : Nat)
    (data : Nat → Nat) (i : Nat)
    (hto : as.top_offset ≤ i) (hlt : i < as.top_offset + D) :
    ve_send_buff mem as D data i = data (i - as.top_offset) := by
  unfold ve_send_buff updateRange
  rw [if_pos ⟨hto, hlt⟩]

/-- Below the caller's range (inside the head word), the merged buffer
holds the prior accelerator byte. -/
theorem ve_send_buff_head (mem : Mem) (as : addr_struct) (D : Nat)
    (data : Nat → Nat) (i : Nat)
    (hi : i < as.top_offset) (h8 : as.top_offset < 8)
    (hABAT : as.aligned_bottom_address =
      as.aligned_top_address + as.new_datasize)
    (h8le : 8 ≤ as.new_datasize) :
    ve_send_buff mem as D data i = mem (as.aligned_top_address + i) := by
  unfold ve_send_buff updateRange
  rw [if_neg (by omega)]
  by_cases hbo : as.bottom_offset ≠ 0
  · rw [if_pos hbo]
    by_cases htail : as.new_datasize - 8 ≤ i ∧ i < as.new_datasize - 8 + 8
    · rw [if_pos htail]
      unfold ve_recv_data
      congr 1
      omega
    · rw [if_neg htail]
      rw [if_pos (show as.top_offset ≠ 0 by omega)]
      rw [if_pos ⟨Nat.zero_le i, by omega⟩]
      unfold ve_recv_data
      congr 1
  · rw [if_neg hbo]
    rw [if_pos (show as.top_offset ≠ 0 by omega)]
    rw [if_pos ⟨Nat.zero_le i, by omega⟩]
    unfold ve_recv_data
    congr 1

/-- Above the caller's range (inside the tail word), the merged buffer
holds the prior accelerator byte. -/
theorem ve_send_buff_tail (mem : Mem) (as : addr_struct) (D : Nat)
    (data : Nat → Nat) (i : Nat)
    (hi : as.top_offset + D ≤ i) (hlt : i < as.new_datasize)
    (hbo : as.bottom_offset ≠ 0)
    (hABAT : as.aligned_bottom_address =
      as.aligned_top_address + as.new_datasize)
    (h8le : 8 ≤ as.new_datasize)
    (hclose : as.new_datasize ≤ as.top_offset + D + 8) :
    ve_send_buff mem as D data i = mem (as.aligned_top_address + i) := by
  unfold ve_send_buff updateRange
  rw [if_neg (by omega)]
  rw [if_pos hbo]
  rw [if_pos (show as.new_datasize - 8 ≤ i ∧
      i < as.new_datasize - 8 + 8 by omega)]
  unfold ve_recv_data
  congr 1
  omega

/-- **C10.** For every host-to-accelerator transfer through
`ve_send_data` (in particular with an address or size that is not a
multiple of 8), the function reads the 8-byte-aligned words containing
the head and tail of the target range, merges the caller's data into
them, and sends the enclosing aligned span, so that accelerator-memory
bytes outside `[address, address + datasize)` — both inside and outside
the aligned span — keep their prior values, and exactly the caller's
`datasize` bytes receive the caller's data. -/
theorem ve_send_data_frame (mem : Mem) (address datasize : Nat)
    (data : Nat → Nat) (hbound : address + datasize < MOD64) :
    ∃ mem', ve_send_data mem address datasize data = .ok mem' ∧
      (∀ a, address ≤ a → a < address + datasize →
        mem' a = data (a - address)) ∧
      (∀ a, a < address ∨ address + datasize ≤ a → mem' a = mem a) := by
  have h1 : address < MOD64 := by omega
  have hcalc := calc_address_spec address (address + datasize) h1 hbound
  set as := calc_address address (address + datasize) with has
  have hAT : as.aligned_top_address = address - address % 8 := by
    rw [hcalc]
  have hTO : as.top_offset = address % 8 := by rw [hcalc]
  have hAmod : address % 8 < 8 := Nat.mod_lt _ (by omega)
  have hABge : address + datasize ≤ as.aligned_bottom_address := by
    rw [hcalc]
    simp only
    split_ifs with h
    · omega
    · have := Nat.mod_le (address + datasize) 8
      have : (address + datasize) % 8 < 8 := Nat.mod_lt _ (by omega)
      omega
  have hABle8 : as.aligned_bottom_address ≤ address + datasize + 8 := by
    rw [hcalc]
    simp only
    split_ifs with h
    · omega
    · have := Nat.mod_le (address + datasize) 8
      omega
  have hNEW : as.new_datasize =
      as.aligned_bottom_address - as.aligned_top_address := by
    rw [hcalc]
  have hnew8 : as.new_datasize % 8 = 0 := by
    rw [hcalc]
    simp only
    split_ifs with h <;> omega
  have hABAT : as.aligned_bottom_address =
      as.aligned_top_address + as.new_datasize := by
    rw [hNEW]
    omega
  unfold ve_send_data
  rw [← has]
  unfold _ve_send_data_ipc
  rw [if_neg (by simp [hnew8])]
  refine ⟨_, rfl, ?_, ?_⟩
  · intro a ha hb2
    have hmem : as.aligned_top_address ≤ a ∧
        a < as.aligned_top_address + as.new_datasize := ⟨by omega, by omega⟩
    show (if as.aligned_top_address ≤ a ∧
        a < as.aligned_top_address + as.new_datasize then
          ve_send_buff mem as datasize data (a - as.aligned_top_address)
        else mem a) = data (a - address)
    rw [if_pos hmem]
    rw [ve_send_buff_data mem as datasize data _ (by omega) (by omega)]
    congr 1
    omega
  · intro a hout
    show (if as.aligned_top_address ≤ a ∧
        a < as.aligned_top_address + as.new_datasize then
          ve_send_buff mem as datasize data (a - as.aligned_top_address)
        else mem a) = mem a
    by_cases hin : as.aligned_top_address ≤ a ∧
        a < as.aligned_top_address + as.new_datasize
    · rw [if_pos hin]
      rcases hout with hlt | hge
      · rw [ve_send_buff_head mem as datasize data _ (by omega) (by omega)
          hABAT (by omega)]
        congr 1
        omega
      · have hb8 : (address + datasize) % 8 ≠ 0 := by
          intro h0
          have hABeq : as.aligned_bottom_address = address + datasize := by
            rw [hcalc]
            simp only
            rw [if_pos h0]
          omega
        have hBOval : as.bottom_offset = 8 - (address + datasize) % 8 := by
          rw [hcalc]
          simp only
          rw [if_neg hb8]
        have hbmod : (address + datasize) % 8 < 8 := Nat.mod_lt _ (by omega)
        rw [ve_send_buff_tail mem as datasize data _ (by omega) (by omega)
          (by omega) hABAT (by omega) (by omega)]
        congr 1
        omega
    · rw [if_neg hin]

/-- Witness for **C10** at a concrete misaligned input: writing 3 bytes
`[0xAA, 0xBB, 0xCC]` at address 5 over a memory holding byte value 7
everywhere leaves bytes 4 and 0 at 7, and sets bytes 5..7 to the
caller's data. -/
theorem ve_send_data_frame_witness :
    ∃ mem', ve_send_data (fun _ => 7) 5 3
        (fun i => [0xAA, 0xBB, 0xCC].getD i 0) = .ok mem' ∧
      (∀ a, 5 ≤ a → a < 5 + 3 →
        mem' a = [0xAA, 0xBB, 0xCC].getD (a - 5) 0) ∧
      (∀ a, a < 5 ∨ 5 + 3 ≤ a → mem' a = (fun _ => (7 : Nat)) a) :=
  ve_send_data_frame (fun _ => 7) 5 3
    (fun i => [0xAA, 0xBB, 0xCC].getD i 0) (by decide)

end Veos
